import Mathlib

/-!
Verification development for the resched library (gamechanger/resched):
a Redis-backed durable work queue (resched/queue.py) and delayed
scheduler (resched/scheduler.py) sharing a small codec layer
(resched/base.py).

The Redis store is embedded shallowly: hashes and sorted sets become
association lists over `String` keys, sets become `String` lists, lists
become `List String` with index 0 as the Redis head (LPUSH end).  Times
(epoch seconds) are modelled as `Int`.  Each Python method becomes a
pure Lean function from state to state; pipelined batches are applied
in command order, and live reads issued while a pipeline is still being
filled are evaluated against the pre-batch state, exactly as redis-py
executes them.  The library targets Python 2 and the redis-py 2.x
client, whose `lrem(name, value)` call uses count 0 and therefore
removes every occurrence of the value.
-/

namespace Resched

/-! ## Association lists: Redis hashes and sorted sets -/

/-- Hash field lookup (HGET): first binding of the key wins. -/
def alget {α : Type} : List (String × α) → String → Option α
  | [], _ => none
  | (k2, v) :: t, k => if k2 = k then some v else alget t k

/-- Remove every binding of a key (HDEL / ZREM). -/
def aldel {α : Type} : List (String × α) → String → List (String × α)
  | [], _ => []
  | (k2, v) :: t, k => if k2 = k then aldel t k else (k2, v) :: aldel t k

/-- Set a hash field (HSET / ZADD): overwrite any previous binding. -/
def alset {α : Type} (l : List (String × α)) (k : String) (v : α) :
    List (String × α) :=
  (k, v) :: aldel l k

/-! ## Sets (SADD / SREM / SISMEMBER) -/

def smem : List String → String → Bool
  | [], _ => false
  | x :: t, k => if x = k then true else smem t k

def sadd (l : List String) (k : String) : List String :=
  if smem l k then l else k :: l

def srem : List String → String → List String
  | [], _ => []
  | x :: t, k => if x = k then srem t k else x :: srem t k

/-- Redis LREM with count 0 (the redis-py 2.x `lrem(name, value)` call):
remove every occurrence of the value from the list. -/
def lremAll : List String → String → List String
  | [], _ => []
  | x :: t, k => if x = k then lremAll t k else x :: lremAll t k

/-- Number of occurrences of a value in a Redis list. -/
def countOcc : List String → String → Nat
  | [], _ => 0
  | x :: t, k => (if x = k then 1 else 0) + countOcc t k

/-- RPOP: remove and return the tail (right end) of a Redis list whose
index 0 is the head. -/
def rpopList : List String → Option String × List String
  | [] => (none, [])
  | [x] => (some x, [])
  | x :: y :: t =>
    let r := rpopList (y :: t)
    (r.1, x :: r.2)

/-! ## Sorted sets

A sorted set is an association list member → score.  ZRANGE 0 0 returns
the element minimal by (score, member) with the member tie broken
lexicographically, which is how Redis orders equal scores. -/

/-- The (member, score) pair ZRANGE key 0 0 WITHSCORES would return. -/
def zmin : List (String × Int) → Option (String × Int)
  | [] => none
  | (m, sc) :: t =>
    match zmin t with
    | none => some (m, sc)
    | some (m2, sc2) =>
      if sc < sc2 ∨ (sc = sc2 ∧ m < m2) then some (m, sc) else some (m2, sc2)

/-- Insert into a list sorted by (score, member). -/
def zinsert (x : String × Int) : List (String × Int) → List (String × Int)
  | [] => [x]
  | y :: t =>
    if x.2 < y.2 ∨ (x.2 = y.2 ∧ ¬ y.1 < x.1) then x :: y :: t
    else y :: zinsert x t

/-- ZRANGE key 0 -1 WITHSCORES: every pair, ordered by (score, member). -/
def zsort (l : List (String × Int)) : List (String × Int) :=
  l.foldr zinsert []

/-! ## Python values

The application values the codec packs and unpacks.  Python floats are
IEEE doubles and are outside this embedding, so the value type has no
float constructor; no theorem below is stated about the FLOAT content
type.  Strings model both Python str and unicode (the basestring
test in base.py covers both). -/

inductive PyObj where
  | pynone : PyObj
  | pystr (s : String) : PyObj
  | pyint (n : Int) : PyObj
  | pybool (b : Bool) : PyObj
  | pylist (xs : List PyObj) : PyObj
  | pydict (kvs : List (String × PyObj)) : PyObj

open PyObj

/-- Python truthiness on the modelled values: None, empty string, zero,
False, and empty containers are falsy. -/
def pyTruthy : PyObj → Bool
  | pynone => false
  | pystr s => s != ""
  | pyint n => n != 0
  | pybool b => b
  | pylist xs => !xs.isEmpty
  | pydict kvs => !kvs.isEmpty

/-- Truthiness of a Redis reply (bulk string or missing key): None and
the empty string are falsy. -/
def strTruthy : Option String → Bool
  | none => false
  | some s => s != ""

/-! ## Decimal digits -/

def digitChar (d : Nat) : Char := Char.ofNat (48 + d)

/-- The decimal digits of a natural number, most significant first,
written with structural fuel so that it reduces inside the kernel;
fuel n + 1 always suffices because n / 10 < n for n ≥ 10. -/
def natCharsAux : Nat → Nat → List Char
  | 0, _ => []
  | fuel + 1, n =>
    if n < 10 then [digitChar n]
    else natCharsAux fuel (n / 10) ++ [digitChar (n % 10)]

/-- The decimal digits of a natural number, most significant first
(the rendering Python str produces for a non-negative int). -/
def natChars (n : Nat) : List Char := natCharsAux (n + 1) n

/-- Python str of an int: decimal digits with a leading minus sign for
negative values. -/
def intStr (n : Int) : String :=
  if n < 0 then ⟨'-' :: natChars (-n).toNat⟩ else ⟨natChars n.toNat⟩

def isDigit (c : Char) : Bool := 48 ≤ c.toNat ∧ c.toNat ≤ 57

def digitVal (c : Char) : Nat := c.toNat - 48

/-- Value of a most-significant-first digit list. -/
def digitsVal (l : List Char) : Nat :=
  l.foldl (fun acc c => 10 * acc + digitVal c) 0

/-- Python int(s): optional surrounding whitespace, an optional sign,
then at least one decimal digit and nothing else; anything else raises
ValueError (modelled as none). -/
def parseInt (s : String) : Option Int :=
  let l1 := (s.toList.dropWhile (fun c => c.isWhitespace)).reverse
  let l2 := (l1.dropWhile (fun c => c.isWhitespace)).reverse
  match l2 with
  | [] => none
  | c :: ds =>
    if c = '-' then
      if ds ≠ [] ∧ ds.all isDigit then some (-(digitsVal ds : Int)) else none
    else if c = '+' then
      if ds ≠ [] ∧ ds.all isDigit then some (digitsVal ds : Int) else none
    else if (c :: ds).all isDigit then some (digitsVal (c :: ds) : Int) else none

/-! ## Python str() / repr() of the modelled values

Only the scalar cases are exercised by theorems (base.py applies str()
to the value when the content type is INT, FLOAT or STRING and the
value is not already a string).  The container cases follow the shape
of Python repr; repr quote-escaping inside strings is rendered with
plain quotes, and no theorem depends on those cases. -/

mutual

def pyRepr : PyObj → String
  | pynone => "None"
  | pystr s => "'" ++ s ++ "'"
  | pyint n => intStr n
  | pybool b => if b then "True" else "False"
  | pylist xs => "[" ++ pyReprList xs ++ "]"
  | pydict kvs => "\x7b" ++ pyReprKVs kvs ++ "\x7d"

def pyReprList : List PyObj → String
  | [] => ""
  | [x] => pyRepr x
  | x :: y :: t => pyRepr x ++ ", " ++ pyReprList (y :: t)

def pyReprKVs : List (String × PyObj) → String
  | [] => ""
  | [(k, v)] => "'" ++ k ++ "': " ++ pyRepr v
  | (k, v) :: p :: t => "'" ++ k ++ "': " ++ pyRepr v ++ ", " ++ pyReprKVs (p :: t)

end

/-- Python str(): like repr except that a top-level string prints
without quotes. -/
def pyStr : PyObj → String
  | pynone => "None"
  | pystr s => s
  | pyint n => intStr n
  | pybool b => if b then "True" else "False"
  | pylist xs => "[" ++ pyReprList xs ++ "]"
  | pydict kvs => "\x7b" ++ pyReprKVs kvs ++ "\x7d"

/-! ## simplejson.dumps

Rendering with the default separators (", " between items, ": " after
object keys) and decimal integers.  Inside strings the quote, the
backslash and control characters are escaped (the five short escapes
plus a four-digit hex escape); other characters are emitted literally,
which is the ensure_ascii=False rendering — the ASCII-only variant
escapes more characters but parses back identically, so the round-trip
facts proved below are insensitive to that choice. -/

def hexChar (d : Nat) : Char := if d < 10 then digitChar d else Char.ofNat (87 + d)

def encodeChar (c : Char) : List Char :=
  if c = '"' then ['\\', '"']
  else if c = '\\' then ['\\', '\\']
  else if c.toNat < 32 then
    if c.toNat = 8 then ['\\', 'b']
    else if c.toNat = 9 then ['\\', 't']
    else if c.toNat = 10 then ['\\', 'n']
    else if c.toNat = 12 then ['\\', 'f']
    else if c.toNat = 13 then ['\\', 'r']
    else ['\\', 'u', '0', '0', hexChar (c.toNat / 16), hexChar (c.toNat % 16)]
  else [c]

/-- A JSON string literal: quote, escaped content, quote. -/
def encodeStr (s : String) : List Char :=
  '"' :: s.data.foldr (fun c acc => encodeChar c ++ acc) ['"']

mutual

def jdump : PyObj → List Char
  | pynone => ['n', 'u', 'l', 'l']
  | pybool true => ['t', 'r', 'u', 'e']
  | pybool false => ['f', 'a', 'l', 's', 'e']
  | pyint n => (intStr n).data
  | pystr s => encodeStr s
  | pylist xs => '[' :: jdumpList xs ++ [']']
  | pydict kvs => '{' :: jdumpKVs kvs ++ ['}']

def jdumpList : List PyObj → List Char
  | [] => []
  | [x] => jdump x
  | x :: y :: t => jdump x ++ ',' :: ' ' :: jdumpList (y :: t)

def jdumpKVs : List (String × PyObj) → List Char
  | [] => []
  | [(k, v)] => encodeStr k ++ ':' :: ' ' :: jdump v
  | (k, v) :: p :: t => encodeStr k ++ ':' :: ' ' :: jdump v ++ ',' :: ' ' :: jdumpKVs (p :: t)

end

def dumps (v : PyObj) : String := ⟨jdump v⟩

/-! ## simplejson.loads

A recursive-descent reader over the character list.  Nesting is paid
for with explicit fuel; the entry point supplies more fuel than any
value printed into the input can consume.  A parse failure models the
ValueError the library raises, and a numeric literal with a fraction
or exponent part would produce a Python float, which is outside this
embedding and therefore also maps to none; no theorem depends on that
case. -/

def wsChar (c : Char) : Bool := c = ' ' || c = '\t' || c = '\n' || c = '\r'

def skipWs (l : List Char) : List Char := l.dropWhile wsChar

def hexVal (c : Char) : Option Nat :=
  if 48 ≤ c.toNat ∧ c.toNat ≤ 57 then some (c.toNat - 48)
  else if 97 ≤ c.toNat ∧ c.toNat ≤ 102 then some (c.toNat - 87)
  else if 65 ≤ c.toNat ∧ c.toNat ≤ 70 then some (c.toNat - 55)
  else none

def escChar (e : Char) : Option Char :=
  if e = '"' then some '"'
  else if e = '\\' then some '\\'
  else if e = '/' then some '/'
  else if e = 'b' then some (Char.ofNat 8)
  else if e = 'f' then some (Char.ofNat 12)
  else if e = 'n' then some '\n'
  else if e = 'r' then some '\r'
  else if e = 't' then some '\t'
  else none

/-- Read the body of a string literal after its opening quote, up to
and including the closing quote; yields the content and the rest.
Surrogate escape pairs recombine into one character; a lone surrogate
is rejected.  Every step consumes at least one character and one unit
of fuel, so fuel = length of the input + 1 always suffices; the
callers pass exactly that. -/
def parseStrBody : Nat → List Char → Option (List Char × List Char)
  | 0, _ => none
  | fuel + 1, l =>
    match l with
    | [] => none
    | c :: rest =>
      if c = '"' then some ([], rest)
      else if c = '\\' then
        match rest with
        | [] => none
        | e :: rest2 =>
          if e = 'u' then
            match rest2 with
            | a :: b :: c3 :: d :: rest3 =>
              match hexVal a, hexVal b, hexVal c3, hexVal d with
              | some x, some y, some z, some w =>
                let n := 4096 * x + 256 * y + 16 * z + w
                if n < 55296 ∨ 57343 < n then
                  (parseStrBody fuel rest3).map fun p => (Char.ofNat n :: p.1, p.2)
                else if n < 56320 then
                  match rest3 with
                  | '\\' :: 'u' :: a2 :: b2 :: c2 :: d2 :: rest4 =>
                    match hexVal a2, hexVal b2, hexVal c2, hexVal d2 with
                    | some x2, some y2, some z2, some w2 =>
                      let m := 4096 * x2 + 256 * y2 + 16 * z2 + w2
                      if 56320 ≤ m ∧ m ≤ 57343 then
                        (parseStrBody fuel rest4).map fun p =>
                          (Char.ofNat (65536 + (n - 55296) * 1024 + (m - 56320)) :: p.1, p.2)
                      else none
                    | _, _, _, _ => none
                  | _ => none
                else none
              | _, _, _, _ => none
            | _ => none
          else
            match escChar e with
            | some ce => (parseStrBody fuel rest2).map fun p => (ce :: p.1, p.2)
            | none => none
      else (parseStrBody fuel rest).map fun p => (c :: p.1, p.2)

/-- Longest digit run at the head of the input. -/
def takeDigits : List Char → List Char × List Char
  | [] => ([], [])
  | c :: t =>
    if isDigit c then
      let p := takeDigits t
      (c :: p.1, p.2)
    else ([], c :: t)

/-- A numeric literal.  A fraction or exponent part would load as a
Python float, outside this embedding: mapped to none. -/
def parseNum (l : List Char) : Option (PyObj × List Char) :=
  let s : Bool × List Char :=
    match l with
    | [] => (false, [])
    | c :: t => if c = '-' then (true, t) else (false, c :: t)
  let p := takeDigits s.2
  match p.1 with
  | [] => none
  | ds =>
    match p.2 with
    | c :: _ =>
      if c = '.' ∨ c = 'e' ∨ c = 'E' then none
      else some (pyint (if s.1 then -(digitsVal ds : Int) else (digitsVal ds : Int)), p.2)
    | [] => some (pyint (if s.1 then -(digitsVal ds : Int) else (digitsVal ds : Int)), [])

mutual

def parseVal : Nat → List Char → Option (PyObj × List Char)
  | 0, _ => none
  | fuel + 1, l =>
    match skipWs l with
    | [] => none
    | c :: rest =>
      if c = '"' then (parseStrBody (rest.length + 1) rest).map fun p => (pystr ⟨p.1⟩, p.2)
      else if c = '[' then
        match skipWs rest with
        | [] => none
        | c2 :: r2 =>
          if c2 = ']' then some (pylist [], r2)
          else (parseElems fuel rest).map fun p => (pylist p.1, p.2)
      else if c = '{' then
        match skipWs rest with
        | [] => none
        | c2 :: r2 =>
          if c2 = '}' then some (pydict [], r2)
          else (parseMembers fuel rest).map fun p => (pydict p.1, p.2)
      else if c = 't' then
        match rest with
        | 'r' :: 'u' :: 'e' :: r2 => some (pybool true, r2)
        | _ => none
      else if c = 'f' then
        match rest with
        | 'a' :: 'l' :: 's' :: 'e' :: r2 => some (pybool false, r2)
        | _ => none
      else if c = 'n' then
        match rest with
        | 'u' :: 'l' :: 'l' :: r2 => some (pynone, r2)
        | _ => none
      else parseNum (c :: rest)

def parseElems : Nat → List Char → Option (List PyObj × List Char)
  | 0, _ => none
  | fuel + 1, l =>
    match parseVal fuel l with
    | none => none
    | some (v, r) =>
      match skipWs r with
      | ',' :: r2 => (parseElems fuel r2).map fun p => (v :: p.1, p.2)
      | ']' :: r2 => some ([v], r2)
      | _ => none

def parseMembers : Nat → List Char → Option (List (String × PyObj) × List Char)
  | 0, _ => none
  | fuel + 1, l =>
    match skipWs l with
    | '"' :: rest =>
      match parseStrBody (rest.length + 1) rest with
      | none => none
      | some (kcs, r) =>
        match skipWs r with
        | ':' :: r2 =>
          match parseVal fuel r2 with
          | none => none
          | some (v, r3) =>
            match skipWs r3 with
            | ',' :: r4 => (parseMembers fuel r4).map fun p => ((⟨kcs⟩, v) :: p.1, p.2)
            | '}' :: r4 => some ([(⟨kcs⟩, v)], r4)
            | _ => none
        | _ => none
    | _ => none

end

/-- simplejson.loads: one value, then only whitespace may remain. -/
def jsonLoads (s : String) : Option PyObj :=
  match parseVal (2 * s.data.length + 2) s.data with
  | some (v, rest) => if (skipWs rest).isEmpty then some v else none
  | none => none

/-! Fuel sufficient for the reader on the printed form of a value:
one unit per reader call, which is one per node plus one per
list or object member visited. -/

mutual

def pneed : PyObj → Nat
  | pynone => 1
  | pystr _ => 1
  | pyint _ => 1
  | pybool _ => 1
  | pylist xs => 1 + pneedList xs
  | pydict kvs => 1 + pneedKVs kvs

def pneedList : List PyObj → Nat
  | [] => 0
  | x :: t => 1 + pneed x + pneedList t

def pneedKVs : List (String × PyObj) → Nat
  | [] => 0
  | kv :: t => 1 + pneed kv.2 + pneedKVs t

end

/-- The character following a printed numeric literal must not extend
it: not a digit and not a fraction or exponent mark.  Every separator
the printer emits after a number (comma, closing bracket or brace, end
of input) qualifies. -/
def numStop : List Char → Bool
  | [] => true
  | c :: _ => !(isDigit c || c = '.' || c = 'e' || c = 'E')

/-- Distinctness of the key strings of an object. -/
def noDupKeys : List (String × PyObj) → Bool
  | [] => true
  | (k, _) :: t => !(t.any fun p => p.1 == k) && noDupKeys t

/-! A modelled value corresponds to a real Python object when every
dict level has distinct keys (a Python dict cannot hold a key twice). -/

mutual

def jwf : PyObj → Bool
  | pynone => true
  | pystr _ => true
  | pyint _ => true
  | pybool _ => true
  | pylist xs => jwfList xs
  | pydict kvs => noDupKeys kvs && jwfKVs kvs

def jwfList : List PyObj → Bool
  | [] => true
  | x :: t => jwf x && jwfList t

def jwfKVs : List (String × PyObj) → Bool
  | [] => true
  | kv :: t => jwf kv.2 && jwfKVs t

end

/-! ## The codec (resched/base.py) -/

inductive ContentType where
  | STRING : ContentType
  | JSON : ContentType
  | INT : ContentType
  | FLOAT : ContentType
deriving DecidableEq

open ContentType

/-- base.py pack: None passes through, any string passes through
unchanged (the basestring test precedes the content-type dispatch),
then INT and FLOAT render with str, JSON with simplejson.dumps and
STRING with str.  The optional JSON encoder hook is not configured
anywhere the claims reach and is not modelled. -/
def pack (ct : ContentType) (v : PyObj) : Option String :=
  match v with
  | pynone => none
  | pystr s => some s
  | v =>
    match ct with
    | INT => some (pyStr v)
    | FLOAT => some (pyStr v)
    | JSON => some (dumps v)
    | STRING => some (pyStr v)

/-- base.py unpack: None passes through; STRING returns the text,
INT applies int(), FLOAT would apply float() — producing an IEEE
double, outside this embedding, hence none and never relied on —
and JSON applies simplejson.loads. -/
def unpack (ct : ContentType) (v : Option String) : Option PyObj :=
  match v with
  | none => some pynone
  | some s =>
    match ct with
    | STRING => some (pystr s)
    | INT => (parseInt s).map pyint
    | FLOAT => none
    | JSON => jsonLoads s

/-- The byte string a value is stored under: pack, with a Python None
encoded by the redis-py 2.x client as str(None). -/
def packD (ct : ContentType) (v : PyObj) : String :=
  (pack ct v).getD "None"

/-! ## The scheduler (resched/scheduler.py)

One namespace of scheduler keys.  waiting and inprogress are the two
sorted sets, payloads / expirations / workingTtl the three hashes of
the current storage format.  The old storage format kept a payload
under the plain key schedule:ns:value and a lock under
schedule:ns:value:working; those per-value string keys are modelled as
two further maps keyed by the packed value.  Scores and times are
epoch seconds.  The hash fields that hold times store decimal strings
in Redis and are read back through float(); they are modelled directly
as the numbers those strings denote. -/

structure SchedState where
  waiting : List (String × Int)
  inprogress : List (String × Int)
  payloads : List (String × String)
  expirations : List (String × Int)
  workingTtl : List (String × Int)
  legacyPayload : List (String × String)
  legacyLock : List (String × String)
deriving DecidableEq

def emptySched : SchedState :=
  { waiting := [], inprogress := [], payloads := [], expirations := [],
    workingTtl := [], legacyPayload := [], legacyLock := [] }

/-- _clear_value: one transaction removing the value from both sorted
sets, its three hash fields, and both old-format keys. -/
def clearValue (v : String) (s : SchedState) : SchedState :=
  { waiting := aldel s.waiting v
    inprogress := aldel s.inprogress v
    payloads := aldel s.payloads v
    expirations := aldel s.expirations v
    workingTtl := aldel s.workingTtl v
    legacyPayload := aldel s.legacyPayload v
    legacyLock := aldel s.legacyLock v }

/-- _reschedule_value: put the value back into waiting at its fire
time, drop it from inprogress, delete its lease fields. -/
def rescheduleValue (v : String) (fireTime : Int) (s : SchedState) : SchedState :=
  { s with
    waiting := alset s.waiting v fireTime
    inprogress := aldel s.inprogress v
    workingTtl := aldel s.workingTtl v
    legacyLock := aldel s.legacyLock v }

/-- _start_work: move the value from waiting to inprogress keeping its
original fire time as the score, and record the lease expiry
now + progress_ttl in the working hash (the source takes a fresh
time.time() reading here; time does not advance inside an operation in
this embedding, so it coincides with now). -/
def startWork (v : String) (schedTime progressTtl now : Int) (s : SchedState) : SchedState :=
  { s with
    waiting := aldel s.waiting v
    inprogress := alset s.inprogress v schedTime
    workingTtl := alset s.workingTtl v (now + progressTtl) }

/-- schedule(value, fire, expire=None, payload=None): pack the value,
pack the payload falling back to the packed value when the packed
payload is falsy, then in one transaction write the waiting score, the
payload field, and — when the expire time is truthy (a Python float,
so an expire time of exactly 0 is skipped) — the expiration field. -/
def schedule (ct : ContentType) (s : SchedState) (value payload : PyObj)
    (fireTime : Int) (expireTime : Option Int) : SchedState :=
  let v := packD ct value
  let p := match pack ct payload with
    | some ps => if ps != "" then ps else v
    | none => v
  { s with
    waiting := alset s.waiting v fireTime
    payloads := alset s.payloads v p
    expirations := match expireTime with
      | some e => if e ≠ 0 then alset s.expirations v e else s.expirations
      | none => s.expirations }

/-- deschedule(value): pack, then _clear_value. -/
def deschedule (ct : ContentType) (s : SchedState) (value : PyObj) : SchedState :=
  clearValue (packD ct value) s

/-- complete(value): pack, then _clear_value. -/
def schedComplete (ct : ContentType) (s : SchedState) (value : PyObj) : SchedState :=
  clearValue (packD ct value) s

/-- is_expired on the already-packed value, exactly as the source
computes it: when the expiration field is present the test the code
performs is float(expire_date) > now, and when absent it falls back to
presence of the old-format payload key. -/
def isExpiredRaw (s : SchedState) (v : String) (now : Int) : Bool :=
  match alget s.expirations v with
  | some e => e > now
  | none => (alget s.legacyPayload v).isSome

/-- is_expired(value): pack, then the raw test. -/
def isExpired (ct : ContentType) (s : SchedState) (value : PyObj) (now : Int) : Bool :=
  isExpiredRaw s (packD ct value) now

/-- is_scheduled on the packed value: a waiting score exists and the
value is not is_expired. -/
def isScheduledRaw (s : SchedState) (v : String) (now : Int) : Bool :=
  (alget s.waiting v).isSome && !isExpiredRaw s v now

def isScheduled (ct : ContentType) (s : SchedState) (value : PyObj) (now : Int) : Bool :=
  isScheduledRaw s (packD ct value) now

/-- count_scheduled: ZCARD of waiting. -/
def count_scheduled (s : SchedState) : Nat := s.waiting.length

/-- The return path of pop_due, the one-liner
`self._clear_value(value, pipe) if destructively else self._start_work(...)`
followed by `return (value, self.unpack(payload))`: the raw value paired
with the unpacked payload, over the cleared or leased state. -/
def leaseOrClear (ct : ContentType) (destructively : Bool) (v : String)
    (schedTime progressTtl now : Int) (pstr : String) (s : SchedState) :
    Option (String × Option PyObj) × SchedState :=
  if destructively then (some (v, unpack ct (some pstr)), clearValue v s)
  else (some (v, unpack ct (some pstr)), startWork v schedTime progressTtl now s)

/-- The body of the pop_due while-loop.  One iteration examines the
minimum of waiting and either returns, or clears the value and goes
round again; the fuel argument only bounds that loop (each iteration
that continues has first removed the minimum from waiting, so fuel
never actually runs out with the fuel the wrapper supplies, and its
exhaustion lands on the unreachable return None, None after the
loop).  In a single-client execution the WATCH never fires, so the
WatchError branch does not appear.  The now reading is taken once,
before the loop, as in the source. -/
def popDueLoop (ct : ContentType) (now progressTtl : Int) (destructively : Bool) :
    Nat → SchedState → Option (String × Option PyObj) × SchedState
  | 0, s => (none, s)
  | fuel + 1, s =>
    match zmin s.waiting with
    | none => (none, s)
    | some (v, schedTime) =>
      if v = "" ∨ schedTime > now then (none, s)
      else
        match alget s.payloads v with
        | some p =>
          if p != "" then
            match alget s.expirations v with
            | some e =>
              if e > now then popDueLoop ct now progressTtl destructively fuel (clearValue v s)
              else leaseOrClear ct destructively v schedTime progressTtl now p s
            | none => leaseOrClear ct destructively v schedTime progressTtl now p s
          else
            match alget s.legacyPayload v with
            | some lp =>
              if lp != "" then leaseOrClear ct destructively v schedTime progressTtl now lp s
              else popDueLoop ct now progressTtl destructively fuel (clearValue v s)
            | none => popDueLoop ct now progressTtl destructively fuel (clearValue v s)
        | none =>
          match alget s.legacyPayload v with
          | some lp =>
            if lp != "" then leaseOrClear ct destructively v schedTime progressTtl now lp s
            else popDueLoop ct now progressTtl destructively fuel (clearValue v s)
          | none => popDueLoop ct now progressTtl destructively fuel (clearValue v s)

/-- pop_due(progress_ttl=60, destructively=False). -/
def popDue (ct : ContentType) (now progressTtl : Int) (destructively : Bool)
    (s : SchedState) : Option (String × Option PyObj) × SchedState :=
  popDueLoop ct now progressTtl destructively (s.waiting.length + 1) s

/-- One pass of the reschedule_dropped_items for-loop over a single
(value, score) pair from the inprogress snapshot.  The check the code
performs first is a GET of the old-format working lock key; the
working hash written by _start_work is never consulted. -/
def rdiStep (now : Int) (s : SchedState) (item : String × Int) : SchedState :=
  let v := item.1
  let schedTime := item.2
  if (alget s.legacyLock v).isSome then s
  else
    match alget s.payloads v with
    | some p =>
      if p != "" then
        if isExpiredRaw s v now then clearValue v s
        else rescheduleValue v schedTime s
      else
        match alget s.legacyPayload v with
        | none => clearValue v s
        | some _ =>
          if !isScheduledRaw s v now then rescheduleValue v schedTime s else s
    | none =>
      match alget s.legacyPayload v with
      | none => clearValue v s
      | some _ =>
        if !isScheduledRaw s v now then rescheduleValue v schedTime s else s

/-- reschedule_dropped_items: snapshot ZRANGE inprogress 0 -1
WITHSCORES (score order), then process each pair in turn. -/
def rescheduleDroppedItems (s : SchedState) (now : Int) : SchedState :=
  (zsort s.inprogress).foldl (rdiStep now) s

/-- peek_due: read the minimum of waiting; if due, return the unpacked
payload (new-format hash first, then the old-format key). -/
def peekDue (ct : ContentType) (s : SchedState) (now : Int) : Option PyObj :=
  match zmin s.waiting with
  | none => none
  | some (v, schedTime) =>
    if schedTime > now then none
    else
      let p1 := alget s.payloads v
      unpack ct (if strTruthy p1 then p1 else alget s.legacyPayload v)

/-! ## The queue (resched/queue.py)

One namespace of queue keys.  pending is the queue.ns list with index
0 at the Redis head (the LPUSH end; RPOP takes the last element),
entries the dedup set, workers the worker-id set, working the
per-worker leased lists (each with index 0 at the head), beacons the
per-worker active keys modelled as their absolute expiry instants, and
payloads the payload hash.  Blocking pops agree with the non-blocking
ones whenever the list is non-empty and block otherwise; only the
non-blocking behaviour is modelled. -/

inductive Strategy where
  | fifo : Strategy
  | filo : Strategy
deriving DecidableEq

structure QueueCfg where
  contentType : ContentType
  workerId : String
  strategy : Strategy
  keepEntrySet : Bool
  keepWorkingEntrySet : Bool
  workTtl : Int
deriving DecidableEq

structure QueueState where
  pending : List String
  entries : List String
  workers : List String
  working : List (String × List String)
  beacons : List (String × Int)
  payloads : List (String × String)
deriving DecidableEq

def emptyQueue : QueueState :=
  { pending := [], entries := [], workers := [], working := [],
    beacons := [], payloads := [] }

/-- The working-list of a worker; a missing key is the empty list. -/
def workingOf (s : QueueState) (wid : String) : List String :=
  (alget s.working wid).getD []

/-- _on_activity: SADD the worker id into the workers set and refresh
the active beacon with TTL work_ttl, i.e. give it expiry
now + work_ttl. -/
def onActivity (cfg : QueueCfg) (now : Int) (s : QueueState) : QueueState :=
  { s with
    workers := sadd s.workers cfg.workerId
    beacons := alset s.beacons cfg.workerId (now + cfg.workTtl) }

/-- contains(value): SISMEMBER of the packed value on the entry set. -/
def qcontains (cfg : QueueCfg) (s : QueueState) (value : PyObj) : Bool :=
  smem s.entries (packD cfg.contentType value)

/-- _is_pushable: true without the entry set, otherwise not contains
(the argument is already packed and pack passes strings through). -/
def isPushable (cfg : QueueCfg) (s : QueueState) (v : String) : Bool :=
  if !cfg.keepEntrySet then true else !smem s.entries v

/-- push(value, payload=None): pack both; in one batch, write the list
end chosen by the strategy when pushable, SADD the entry when the
entry set is kept, and HSET the payload field when the packed payload
is truthy.  push does not call _on_activity. -/
def push (cfg : QueueCfg) (s : QueueState) (value payload : PyObj) : QueueState :=
  let v := packD cfg.contentType value
  let p := pack cfg.contentType payload
  let s1 :=
    if isPushable cfg s v then
      match cfg.strategy with
      | Strategy.fifo => { s with pending := v :: s.pending }
      | Strategy.filo => { s with pending := s.pending ++ [v] }
    else s
  let s2 := if cfg.keepEntrySet then { s1 with entries := sadd s1.entries v } else s1
  match p with
  | some ps => if ps != "" then { s2 with payloads := alset s2.payloads v ps } else s2
  | none => s2

/-- The state-and-raw-value part of pop: _on_activity, then RPOP
(destructive) or RPOPLPUSH onto the head of this worker's working
list, then SREM the entry when the value is truthy and the pop is
destructive or working entries are not tracked. -/
def popCore (cfg : QueueCfg) (now : Int) (destructively : Bool) (s : QueueState) :
    Option String × QueueState :=
  let s1 := onActivity cfg now s
  let r := rpopList s1.pending
  let s2 :=
    if destructively then { s1 with pending := r.2 }
    else
      match r.1 with
      | some v =>
        { s1 with
          pending := r.2
          working := alset s1.working cfg.workerId (v :: workingOf s1 cfg.workerId) }
      | none => s1
  let s3 :=
    match r.1 with
    | some v =>
      if (destructively || !cfg.keepWorkingEntrySet) && v != "" then
        { s2 with entries := srem s2.entries v }
      else s2
    | none => s2
  (r.1, s3)

/-- pop(..., return_key=True): read the payload hash at the popped
value and unpack both; none models the codec raising. -/
def popPair (cfg : QueueCfg) (now : Int) (destructively : Bool) (s : QueueState) :
    Option (PyObj × PyObj) × QueueState :=
  let r := popCore cfg now destructively s
  let praw :=
    match r.1 with
    | some v => alget r.2.payloads v
    | none => none
  match unpack cfg.contentType r.1, unpack cfg.contentType praw with
  | some kv, some pv => (some (kv, pv), r.2)
  | _, _ => (none, r.2)

/-- pop(..., return_key=False): payload or v. -/
def popVal (cfg : QueueCfg) (now : Int) (destructively : Bool) (s : QueueState) :
    Option PyObj × QueueState :=
  match popPair cfg now destructively s with
  | (some (kv, pv), s2) => (some (if pyTruthy pv then pv else kv), s2)
  | (none, s2) => (none, s2)

/-- peek: _on_activity, then unpack LINDEX 0. -/
def peek (cfg : QueueCfg) (now : Int) (s : QueueState) : Option PyObj × QueueState :=
  let s1 := onActivity cfg now s
  (unpack cfg.contentType s1.pending.head?, s1)

/-- noop: only _on_activity. -/
def noop (cfg : QueueCfg) (now : Int) (s : QueueState) : QueueState :=
  onActivity cfg now s

/-- complete(value, result=None) with one modelled pipe target: after
_on_activity, queue LREM (count 0: every occurrence) on this worker's
working list, SREM on the entry set and HDEL on the payload hash;
when the result is truthy and maps to a pipe, HGET the payload from
the live (pre-batch) hash and push the (packed key, payload) pair into
the target queue on the same pipeline.  pipes lists the labels routed
to the target; source and target key families are disjoint, so the
batch is the source update and the target push. -/
def qcomplete (cfg : QueueCfg) (pipes : List String) (tcfg : QueueCfg) (now : Int)
    (s t : QueueState) (value : PyObj) (result : Option String) :
    QueueState × QueueState :=
  let s1 := onActivity cfg now s
  let v := packD cfg.contentType value
  let doPipe :=
    match result with
    | some r => r != "" && pipes.contains r
    | none => false
  let pl := if doPipe then alget s1.payloads v else none
  let s2 :=
    { s1 with
      working := alset s1.working cfg.workerId (lremAll (workingOf s1 cfg.workerId) v)
      entries := srem s1.entries v
      payloads := aldel s1.payloads v }
  let t2 :=
    if doPipe then
      push tcfg t (pystr v) (match pl with | some ps => pystr ps | none => pynone)
    else t
  (s2, t2)

/-- unpop(value): _on_activity, then in one transaction LREM (count 0)
from this worker's working list, LPUSH onto the pending list, and SADD
back into the entry set when it is kept. -/
def unpop (cfg : QueueCfg) (now : Int) (s : QueueState) (value : PyObj) : QueueState :=
  let s1 := onActivity cfg now s
  let v := packD cfg.contentType value
  let s2 :=
    { s1 with
      working := alset s1.working cfg.workerId (lremAll (workingOf s1 cfg.workerId) v)
      pending := v :: s1.pending }
  if cfg.keepEntrySet then { s2 with entries := sadd s2.entries v } else s2

/-- clear: one batch deleting the pending list, the entry set, this
worker's working list and beacon, this worker from the workers set,
every working list of the workers read live from the set, and the
workers set itself.  The payload hash is not touched.  clear does not
call _on_activity. -/
def qclear (cfg : QueueCfg) (s : QueueState) : QueueState :=
  { pending := []
    entries := []
    workers := []
    working := s.workers.foldl (fun w wid => aldel w wid) (aldel s.working cfg.workerId)
    beacons := aldel s.beacons cfg.workerId
    payloads := s.payloads }

/-- One worker of the reclaim_tasks loop: skip while the beacon still
answers GET (its expiry has not passed), otherwise rotate the whole
working list onto the head of the pending list, LLEN single-element
RPOPLPUSH steps at a time, and SREM the worker. -/
def reclaimStep (now : Int) (st : QueueState) (wid : String) : QueueState :=
  let live : Bool :=
    match alget st.beacons wid with
    | some e => e > now
    | none => false
  if live then st
  else
    { st with
      pending := workingOf st wid ++ st.pending
      working := alset st.working wid []
      workers := srem st.workers wid }

/-- reclaim_tasks: the loop over SMEMBERS of the workers set.  It does
not call _on_activity. -/
def reclaimTasks (now : Int) (s : QueueState) : QueueState :=
  s.workers.foldl (reclaimStep now) s

/-- size: LLEN of the pending list. -/
def qsize (s : QueueState) : Nat := s.pending.length

/-- number_in_progress (single worker): LLEN of this working list. -/
def numberInProgress (cfg : QueueCfg) (s : QueueState) : Nat :=
  (workingOf s cfg.workerId).length

/-- number_of_entries: SCARD of the entry set. -/
def numberOfEntries (s : QueueState) : Nat := s.entries.length

/-- number_active_workers: SCARD of the workers set. -/
def numberActiveWorkers (s : QueueState) : Nat := s.workers.length

/-- What touching liveness means: after the operation the worker id is
in the workers set and its beacon holds TTL work_ttl, i.e. expiry
now + work_ttl. -/
def liveTouched (cfg : QueueCfg) (now : Int) (st : QueueState) : Prop :=
  smem st.workers cfg.workerId = true ∧
  alget st.beacons cfg.workerId = some (now + cfg.workTtl)

/-! ## Concrete queue configurations and states used as inputs below -/

/-- A dedup-tracking string queue for worker w. -/
def cfgTrack : QueueCfg :=
  { contentType := ContentType.STRING, workerId := "w",
    strategy := Strategy.fifo, keepEntrySet := true,
    keepWorkingEntrySet := true, workTtl := 60 }

/-- An INT-codec queue for worker w without dedup. -/
def cfgInt : QueueCfg :=
  { contentType := ContentType.INT, workerId := "w",
    strategy := Strategy.fifo, keepEntrySet := false,
    keepWorkingEntrySet := true, workTtl := 60 }

/-- Worker w holds two leased occurrences of k. -/
def sDupWorking : QueueState :=
  { emptyQueue with working := [("w", ["k", "k"])] }

/-- Worker w holds a leased a with payload aaa, ready to complete into
a pipe. -/
def sPipeSrc : QueueState :=
  { emptyQueue with
    working := [("w", ["a"])]
    payloads := [("a", "aaa")] }

/-- A tracked queue holding hello with payload1, about to receive a
second push of hello with payload2. -/
def sQe : QueueState :=
  { emptyQueue with
    pending := ["hello"]
    entries := ["hello"]
    payloads := [("hello", "payload1")] }

/-- An INT-codec scheduler holding the packed value 5 due at time 0. -/
def sIntSched : SchedState :=
  { emptySched with
    waiting := [("5", 0)]
    payloads := [("5", "5")] }

/-- An INT-codec queue holding the packed value 5 with packed payload 7. -/
def sIntQueue : QueueState :=
  { emptyQueue with
    pending := ["5"]
    payloads := [("5", "7")] }

/-! ## The expiration predicate as the specification words it

Stated from the spec sentence "expired iff expiration[k] is present and
its value ≤ now", to compare against the is_expired the code computes. -/

def specIsExpired (s : SchedState) (v : String) (now : Int) : Bool :=
  match alget s.expirations v with
  | some e => decide (e ≤ now)
  | none => false

/-! ## Concrete scheduler states used as inputs below -/

/-- A due element whose expiration time 10 already passed at now = 50. -/
def sExpiredDue : SchedState :=
  { emptySched with
    waiting := [("k", 0)]
    payloads := [("k", "pl")]
    expirations := [("k", 10)] }

/-- A due element whose expiration time 100 is still in the future at
now = 50. -/
def sFutureExp : SchedState :=
  { emptySched with
    waiting := [("k", 0)]
    payloads := [("k", "pl")]
    expirations := [("k", 100)] }

/-- An in-progress task whose lease in the working hash, 1000, is far
in the future at now = 50. -/
def sLiveLease : SchedState :=
  { emptySched with
    inprogress := [("k", 5)]
    payloads := [("k", "p")]
    workingTtl := [("k", 1000)] }

/-- Invariant S1: no packed value is simultaneously a member of the
waiting and inprogress sorted sets. -/
def schedExclusive (s : SchedState) : Prop :=
  ∀ k : String, (alget s.waiting k).isSome = true → alget s.inprogress k = none

/-- The state reached from empty by scheduling k at fire time 0 and
then popping it due at now = 0: k is in inprogress only. -/
def sInProg : SchedState :=
  (popDue ContentType.STRING 0 60 false
    (schedule ContentType.STRING emptySched (pystr "k") pynone 0 none)).2

/-- Scheduling k again, at fire time 5, while it is in progress. -/
def sBoth : SchedState :=
  schedule ContentType.STRING sInProg (pystr "k") pynone 5 none

/-! ## Claim theorems: scheduler expiration handling -/

/-- C1.  The claim says pop_due purges a due element whose expiration
entry is ≤ now and leases-and-returns one whose expiration entry is
absent or still in the future.  The code tests float(expire_time) >
time_now for the purge, inverting the comparison: at now = 50 it
leases and returns the element expired at 10 (first two conjuncts),
and purges — clearing every trace of — the element that only expires
at 100 (last three conjuncts), then reports nothing due. -/
theorem C1_popDue_expiration_inverted :
    (popDue ContentType.STRING 50 60 false sExpiredDue).1
      = some ("k", some (pystr "pl")) ∧
    alget (popDue ContentType.STRING 50 60 false sExpiredDue).2.inprogress "k"
      = some 0 ∧
    (popDue ContentType.STRING 50 60 false sFutureExp).1 = none ∧
    (popDue ContentType.STRING 50 60 false sFutureExp).2.waiting = [] ∧
    alget (popDue ContentType.STRING 50 60 false sFutureExp).2.payloads "k"
      = none :=
  ⟨rfl, rfl, rfl, rfl, rfl⟩

/-- C2.  The claim says is_expired(k) is true iff expiration[k] is
present and ≤ now.  The code returns float(expire_date) > now when the
field is present: at now = 50 it calls the not-yet-expired element
(expiration 100) expired and the long-expired element (expiration 10)
not expired, the exact opposite of the predicate the spec states. -/
theorem C2_isExpired_inverted :
    isExpired ContentType.STRING sFutureExp (pystr "k") 50 = true ∧
    specIsExpired sFutureExp "k" 50 = false ∧
    isExpired ContentType.STRING sExpiredDue (pystr "k") 50 = false ∧
    specIsExpired sExpiredDue "k" 50 = true :=
  ⟨rfl, rfl, rfl, rfl⟩

/-- C3.  The claim says reschedule_dropped_items skips a task whose
working-hash lease is still in the future.  The code only GETs the
old-format lock key and never reads the working hash _start_work
wrote: with a lease of 1000 at now = 50 the task is nevertheless
moved back to waiting and its lease field deleted. -/
theorem C3_reschedule_ignores_working_hash :
    alget sLiveLease.workingTtl "k" = some 1000 ∧ ((1000 : Int) > 50) ∧
    (rescheduleDroppedItems sLiveLease 50).inprogress = [] ∧
    (rescheduleDroppedItems sLiveLease 50).waiting = [("k", 5)] ∧
    alget (rescheduleDroppedItems sLiveLease 50).workingTtl "k" = none :=
  ⟨rfl, by decide, rfl, rfl, rfl⟩

/-! ## Association-list lemmas -/

theorem alget_aldel_self {α : Type} (l : List (String × α)) (k : String) :
    alget (aldel l k) k = none := by
  induction l with
  | nil => rfl
  | cons p t ih =>
    obtain ⟨k2, v⟩ := p
    by_cases h : k2 = k
    · simpa [aldel, h] using ih
    · simpa [aldel, alget, h] using ih

theorem alget_aldel_ne {α : Type} (l : List (String × α)) {kd kq : String}
    (h : kd ≠ kq) : alget (aldel l kd) kq = alget l kq := by
  induction l with
  | nil => rfl
  | cons p t ih =>
    obtain ⟨k2, v⟩ := p
    by_cases h2 : k2 = kd
    · subst h2
      simp [aldel, alget, h, ih]
    · by_cases h3 : k2 = kq <;> simp [aldel, alget, h2, h3, Ne.symm h, ih]

theorem alget_alset_self {α : Type} (l : List (String × α)) (k : String) (v : α) :
    alget (alset l k v) k = some v := by
  simp [alset, alget]

theorem alget_alset_ne {α : Type} (l : List (String × α)) {ks kq : String}
    (h : ks ≠ kq) (v : α) : alget (alset l ks v) kq = alget l kq := by
  simp [alset, alget, h, alget_aldel_ne l h]

/-! ## Preservation of invariant S1 (waiting / inprogress exclusivity) -/

theorem clearValue_preserves (v : String) (s : SchedState)
    (h : schedExclusive s) : schedExclusive (clearValue v s) := by
  intro k hk
  by_cases hv : v = k
  · subst hv
    simp [clearValue, alget_aldel_self] at hk
  · simp only [clearValue] at hk ⊢
    rw [alget_aldel_ne _ hv] at hk
    rw [alget_aldel_ne _ hv]
    exact h k hk

theorem rescheduleValue_preserves (v : String) (ft : Int) (s : SchedState)
    (h : schedExclusive s) : schedExclusive (rescheduleValue v ft s) := by
  intro k hk
  by_cases hv : v = k
  · subst hv
    simp [rescheduleValue, alget_aldel_self]
  · simp only [rescheduleValue] at hk ⊢
    rw [alget_alset_ne _ hv] at hk
    rw [alget_aldel_ne _ hv]
    exact h k hk

theorem startWork_preserves (v : String) (st ttl now : Int) (s : SchedState)
    (h : schedExclusive s) : schedExclusive (startWork v st ttl now s) := by
  intro k hk
  by_cases hv : v = k
  · subst hv
    simp [startWork, alget_aldel_self] at hk
  · simp only [startWork] at hk ⊢
    rw [alget_aldel_ne _ hv] at hk
    rw [alget_alset_ne _ hv]
    exact h k hk

theorem schedule_preserves (ct : ContentType) (s : SchedState) (value payload : PyObj)
    (ft : Int) (et : Option Int) (h : schedExclusive s)
    (hip : alget s.inprogress (packD ct value) = none) :
    schedExclusive (schedule ct s value payload ft et) := by
  intro k hk
  by_cases hv : packD ct value = k
  · subst hv
    simpa [schedule] using hip
  · simp only [schedule] at hk ⊢
    rw [alget_alset_ne _ hv] at hk
    exact h k hk

theorem leaseOrClear_preserves (ct : ContentType) (d : Bool) (v : String)
    (st ttl now : Int) (pstr : String) (s : SchedState) (h : schedExclusive s) :
    schedExclusive (leaseOrClear ct d v st ttl now pstr s).2 := by
  unfold leaseOrClear
  split
  · exact clearValue_preserves _ _ h
  · exact startWork_preserves _ _ _ _ _ h

theorem popDueLoop_preserves (ct : ContentType) (now ttl : Int) (d : Bool) :
    ∀ fuel (s : SchedState), schedExclusive s →
      schedExclusive (popDueLoop ct now ttl d fuel s).2 := by
  intro fuel
  induction fuel with
  | zero => intro s h; exact h
  | succ n ih =>
    intro s h
    simp only [popDueLoop]
    repeat' split
    all_goals
      first
      | exact h
      | exact ih _ (clearValue_preserves _ _ h)
      | exact leaseOrClear_preserves _ _ _ _ _ _ _ _ h

theorem rdiStep_preserves (now : Int) (s : SchedState) (item : String × Int)
    (h : schedExclusive s) : schedExclusive (rdiStep now s item) := by
  simp only [rdiStep]
  repeat' split
  all_goals
    first
    | exact h
    | exact clearValue_preserves _ _ h
    | exact rescheduleValue_preserves _ _ _ h

theorem foldl_rdiStep_preserves (now : Int) :
    ∀ (l : List (String × Int)) (s : SchedState), schedExclusive s →
      schedExclusive (l.foldl (rdiStep now) s) := by
  intro l
  induction l with
  | nil => intro s h; exact h
  | cons x t ih => intro s h; exact ih _ (rdiStep_preserves now s x h)

/-! ## Claim theorems: invariant S1 -/

/-- C8, counterexample.  From the empty store: schedule k at time 0,
pop it due (k moves to inprogress), then schedule k again at time 5.
schedule only ZADDs into waiting and never removes the value from
inprogress, so k ends up a member of both sorted sets and the claimed
exclusivity fails on a state reachable through the listed operations
alone. -/
theorem C8_schedule_breaks_exclusivity :
    alget sBoth.waiting "k" = some 5 ∧
    alget sBoth.inprogress "k" = some 0 ∧
    ¬ schedExclusive sBoth := by
  refine ⟨rfl, rfl, fun h => ?_⟩
  have h2 : (some (0 : Int) : Option Int) = none := h "k" rfl
  exact Option.noConfusion h2

/-- C8, amended.  pop_due, complete, deschedule and
reschedule_dropped_items each preserve the waiting / inprogress
exclusivity from any state satisfying it; schedule preserves it only
under the additional premise that the scheduled key is not currently a
member of inprogress (without that premise it puts the key into both,
as the counterexample shows). -/
theorem C8_ops_preserve_exclusivity :
    (∀ ct now ttl d s, schedExclusive s →
      schedExclusive (popDue ct now ttl d s).2) ∧
    (∀ ct s v, schedExclusive s → schedExclusive (schedComplete ct s v)) ∧
    (∀ ct s v, schedExclusive s → schedExclusive (deschedule ct s v)) ∧
    (∀ now s, schedExclusive s → schedExclusive (rescheduleDroppedItems s now)) ∧
    (∀ ct s v p ft et, schedExclusive s →
      alget s.inprogress (packD ct v) = none →
      schedExclusive (schedule ct s v p ft et)) :=
  ⟨fun ct now ttl d s h => popDueLoop_preserves ct now ttl d _ s h,
   fun _ s _ h => clearValue_preserves _ s h,
   fun _ s _ h => clearValue_preserves _ s h,
   fun now s h => foldl_rdiStep_preserves now _ s h,
   fun ct s v p ft et h hip => schedule_preserves ct s v p ft et h hip⟩

/-- C8, witness: the amended theorem applied along the concrete
reachable chain empty → schedule k → pop_due, every premise discharged
at those inputs. -/
theorem C8_ops_preserve_exclusivity_witness :
    schedExclusive (popDue ContentType.STRING 0 60 false
      (schedule ContentType.STRING emptySched (pystr "k") pynone 0 none)).2 :=
  C8_ops_preserve_exclusivity.1 ContentType.STRING 0 60 false _
    (C8_ops_preserve_exclusivity.2.2.2.2 ContentType.STRING emptySched
      (pystr "k") pynone 0 none (fun _ h => nomatch h) rfl)

/-! ## List and set lemmas for the queue -/

theorem lremAll_of_countOcc_zero (l : List String) (v : String)
    (h : countOcc l v = 0) : lremAll l v = l := by
  induction l with
  | nil => rfl
  | cons x t ih =>
    by_cases hx : x = v
    · subst hx
      simp [countOcc] at h
    · simp only [countOcc, if_neg hx, Nat.zero_add] at h
      simp [lremAll, hx, ih h]

theorem countOcc_lremAll (l : List String) (v : String) :
    countOcc (lremAll l v) v = 0 := by
  induction l with
  | nil => rfl
  | cons x t ih =>
    by_cases hx : x = v <;> simp [lremAll, countOcc, hx, ih]

theorem rpopList_append (rest : List String) (v : String) :
    rpopList (rest ++ [v]) = (some v, rest) := by
  induction rest with
  | nil => rfl
  | cons x t ih =>
    rcases h : t ++ [v] with _ | ⟨y, t2⟩
    · exact absurd h (by simp)
    · rw [List.cons_append, h, rpopList]
      rw [h] at ih
      rw [ih]

theorem smem_sadd_self (l : List String) (k : String) :
    smem (sadd l k) k = true := by
  by_cases h : smem l k
  · simp [sadd, h]
  · simp only [sadd, h, if_neg, Bool.false_eq_true, if_false]
    simp [smem]

theorem smem_srem_self (l : List String) (k : String) :
    smem (srem l k) k = false := by
  induction l with
  | nil => rfl
  | cons x t ih =>
    by_cases hx : x = k <;> simp [srem, smem, hx, ih]

/-! ## Claim theorems: unpop on a non-leased key -/

/-- C4, counterexample.  With nothing leased, unpop of k is claimed to
leave all state unchanged; in the code it still LPUSHes the packed key
onto the pending list and SADDs it into the entry set. -/
theorem C4_unpop_not_noop_cex :
    countOcc (workingOf emptyQueue "w") "k" = 0 ∧
    (unpop cfgTrack 0 emptyQueue (pystr "k")).pending ≠ emptyQueue.pending ∧
    (unpop cfgTrack 0 emptyQueue (pystr "k")).entries ≠ emptyQueue.entries :=
  ⟨rfl, by decide, by decide⟩

/-- C4, amended.  unpop of a key with no occurrence in this worker's
working-list raises no error and leaves every working-list unchanged,
but it still prepends the packed key to the pending list, re-adds it
to the entry set when dedup is on, leaves the payload hash alone, and
touches liveness. -/
theorem C4_unpop_nonleased (cfg : QueueCfg) (now : Int) (s : QueueState)
    (value : PyObj)
    (h : countOcc (workingOf s cfg.workerId) (packD cfg.contentType value) = 0) :
    (unpop cfg now s value).pending = packD cfg.contentType value :: s.pending ∧
    workingOf (unpop cfg now s value) cfg.workerId = workingOf s cfg.workerId ∧
    (cfg.keepEntrySet = true →
      smem (unpop cfg now s value).entries (packD cfg.contentType value) = true) ∧
    (cfg.keepEntrySet = false → (unpop cfg now s value).entries = s.entries) ∧
    (unpop cfg now s value).payloads = s.payloads ∧
    liveTouched cfg now (unpop cfg now s value) := by
  have hl := lremAll_of_countOcc_zero _ _ h
  simp only [workingOf] at hl
  cases hke : cfg.keepEntrySet <;>
    simp [unpop, onActivity, workingOf, hke, hl, alget_alset_self,
      smem_sadd_self, liveTouched]

/-- C4, witness: the amended theorem applied to the empty store. -/
theorem C4_unpop_nonleased_witness :
    (unpop cfgTrack 0 emptyQueue (pystr "k")).pending = ["k"] ∧
    workingOf (unpop cfgTrack 0 emptyQueue (pystr "k")) "w" = [] :=
  ⟨(C4_unpop_nonleased cfgTrack 0 emptyQueue (pystr "k") rfl).1,
   (C4_unpop_nonleased cfgTrack 0 emptyQueue (pystr "k") rfl).2.1⟩

/-! ## Claim theorems: which operations touch liveness -/

theorem foldl_reclaimStep_beacons (now : Int) (l : List String) :
    ∀ s : QueueState, (l.foldl (reclaimStep now) s).beacons = s.beacons := by
  induction l with
  | nil => intro s; rfl
  | cons x t ih =>
    intro s
    rw [List.foldl_cons, ih]
    simp only [reclaimStep]
    repeat' split
    all_goals rfl

/-- C5, counterexample.  The claim names push as a liveness-touching
operation; push never calls _on_activity, so from the empty store it
adds no worker id and writes no beacon. -/
theorem C5_push_no_liveness_cex :
    (push cfgTrack emptyQueue (pystr "a") pynone).workers = [] ∧
    alget (push cfgTrack emptyQueue (pystr "a") pynone).beacons "w" = none :=
  ⟨rfl, rfl⟩

/-- C5, amended.  pop, peek, complete, noop and unpop touch liveness
(worker id SADDed, beacon set with TTL work_ttl); push and clear do
not (push leaves the workers set and beacons unchanged, clear deletes
this worker's beacon and empties the workers set), and reclaim_tasks
writes no beacon. -/
theorem C5_liveness_amended :
    (∀ cfg s value payload,
      (push cfg s value payload).workers = s.workers ∧
      (push cfg s value payload).beacons = s.beacons) ∧
    (∀ cfg s, (qclear cfg s).workers = [] ∧
      (qclear cfg s).beacons = aldel s.beacons cfg.workerId) ∧
    (∀ now s, (reclaimTasks now s).beacons = s.beacons) ∧
    (∀ cfg now d s, liveTouched cfg now (popCore cfg now d s).2) ∧
    (∀ cfg now s, liveTouched cfg now (peek cfg now s).2) ∧
    (∀ cfg pipes tcfg now s t value result,
      liveTouched cfg now (qcomplete cfg pipes tcfg now s t value result).1) ∧
    (∀ cfg now s, liveTouched cfg now (noop cfg now s)) ∧
    (∀ cfg now s value, liveTouched cfg now (unpop cfg now s value)) := by
  refine ⟨?_, ?_, ?_, ?_, ?_, ?_, ?_, ?_⟩
  · intro cfg s value payload
    simp only [push]
    repeat' split
    all_goals exact ⟨rfl, rfl⟩
  · intro cfg s
    exact ⟨rfl, rfl⟩
  · intro now s
    exact foldl_reclaimStep_beacons now s.workers s
  · intro cfg now d s
    simp only [popCore, onActivity, liveTouched]
    repeat' split
    all_goals exact ⟨smem_sadd_self _ _, alget_alset_self _ _ _⟩
  · intro cfg now s
    exact ⟨smem_sadd_self _ _, alget_alset_self _ _ _⟩
  · intro cfg pipes tcfg now s t value result
    exact ⟨smem_sadd_self _ _, alget_alset_self _ _ _⟩
  · intro cfg now s
    exact ⟨smem_sadd_self _ _, alget_alset_self _ _ _⟩
  · intro cfg now s value
    simp only [unpop, onActivity, liveTouched]
    repeat' split
    all_goals exact ⟨smem_sadd_self _ _, alget_alset_self _ _ _⟩

/-! ## Claim theorems: complete -/

/-- C6, counterexample.  The claim says complete removes exactly one
occurrence from the working-list; the redis-py 2.x lrem(name, value)
call uses count 0 and removes them all: with k leased twice, zero
occurrences remain. -/
theorem C6_complete_lrem_count0_cex :
    countOcc (workingOf sDupWorking "w") "k" = 2 ∧
    countOcc (workingOf (qcomplete cfgTrack [] cfgTrack 0 sDupWorking
      emptyQueue (pystr "k") none).1 "w") "k" = 0 :=
  ⟨rfl, rfl⟩

/-- C6, amended.  complete atomically removes every occurrence of the
packed key from this worker's working-list (exactly one whenever the
key is leased at most once), removes it from the entry set, and
deletes its payload field; when the result names a configured pipe the
payload pushed to the pipe queue is the one read before the deletion,
and with no result the target queue is untouched. -/
theorem C6_complete_effects (cfg : QueueCfg) (pipes : List String)
    (tcfg : QueueCfg) (now : Int) (s t : QueueState) (value : PyObj)
    (result : Option String) :
    countOcc (workingOf (qcomplete cfg pipes tcfg now s t value result).1
      cfg.workerId) (packD cfg.contentType value) = 0 ∧
    smem (qcomplete cfg pipes tcfg now s t value result).1.entries
      (packD cfg.contentType value) = false ∧
    alget (qcomplete cfg pipes tcfg now s t value result).1.payloads
      (packD cfg.contentType value) = none ∧
    (∀ res, result = some res → res ≠ "" → pipes.contains res = true →
      (qcomplete cfg pipes tcfg now s t value result).2 =
        push tcfg t (pystr (packD cfg.contentType value))
          (match alget s.payloads (packD cfg.contentType value) with
           | some ps => pystr ps
           | none => pynone)) ∧
    (result = none → (qcomplete cfg pipes tcfg now s t value result).2 = t) := by
  refine ⟨?_, ?_, ?_, ?_, ?_⟩
  · simp [qcomplete, onActivity, workingOf, alget_alset_self, countOcc_lremAll]
  · simp [qcomplete, onActivity, smem_srem_self]
  · simp [qcomplete, onActivity, alget_aldel_self]
  · intro res hr hne hc
    subst hr
    have hc2 : res ∈ pipes := by simpa using hc
    simp [qcomplete, onActivity, hne, hc2]
  · intro hr
    subst hr
    simp [qcomplete, onActivity]

/-- C6, witness: the doctest pipe scenario — worker w completes the
leased key a with result error into an empty pipe target; the target
receives a with the payload aaa read before deletion, while the
source working-list, entry set and payload hash drop a. -/
theorem C6_complete_effects_witness :
    (qcomplete cfgTrack ["error"] cfgTrack 0 sPipeSrc emptyQueue
      (pystr "a") (some "error")).2 =
      push cfgTrack emptyQueue (pystr "a") (pystr "aaa") ∧
    countOcc (workingOf (qcomplete cfgTrack ["error"] cfgTrack 0 sPipeSrc
      emptyQueue (pystr "a") (some "error")).1 "w") "a" = 0 :=
  ⟨(C6_complete_effects cfgTrack ["error"] cfgTrack 0 sPipeSrc emptyQueue
      (pystr "a") (some "error")).2.2.2.1 "error" rfl (by decide) rfl,
   (C6_complete_effects cfgTrack ["error"] cfgTrack 0 sPipeSrc emptyQueue
      (pystr "a") (some "error")).1⟩

/-! ## Claim theorems: dedup push keeps the newest payload -/

/-- C7.  With dedup on and the packed key already an entry: push
leaves the pending list untouched, keeps the entry, and overwrites the
payload field; a following leased pop that reaches this key returns
the newest payload. -/
theorem C7_push_dedup (cfg : QueueCfg) (s : QueueState) (key payload : PyObj)
    (v p : String) (kv pu : PyObj) (now : Int) (rest : List String)
    (hke : cfg.keepEntrySet = true)
    (hv : pack cfg.contentType key = some v)
    (hmem : smem s.entries v = true)
    (hp : pack cfg.contentType payload = some p)
    (hpne : p ≠ "")
    (hkv : unpack cfg.contentType (some v) = some kv)
    (hpu : unpack cfg.contentType (some p) = some pu)
    (hput : pyTruthy pu = true) :
    (push cfg s key payload).pending = s.pending ∧
    smem (push cfg s key payload).entries v = true ∧
    alget (push cfg s key payload).payloads v = some p ∧
    (s.pending = rest ++ [v] →
      (popVal cfg now false (push cfg s key payload)).1 = some pu) := by
  have hvD : packD cfg.contentType key = v := by rw [packD, hv]; rfl
  have hpush : push cfg s key payload =
      { s with
        entries := sadd s.entries v
        payloads := alset s.payloads v p } := by
    simp [push, isPushable, hvD, hp, hke, hmem, hpne]
  refine ⟨by rw [hpush], by rw [hpush]; exact smem_sadd_self _ _,
    by rw [hpush]; exact alget_alset_self _ _ _, ?_⟩
  intro hpend
  rw [hpush]
  unfold popVal popPair popCore onActivity
  simp only [hpend, rpopList_append]
  rw [hkv]
  by_cases hv0 : v = "" <;>
    cases hkw : cfg.keepWorkingEntrySet <;>
      simp [workingOf, alget_alset_self, hkv, hpu, hput, hv0]

/-! ## Claim theorems: pop_due returns the stored packed key -/

theorem alget_aldel_some {α : Type} {l : List (String × α)} {kd kq : String}
    {x : α} (h : alget (aldel l kd) kq = some x) : alget l kq = some x := by
  by_cases he : kd = kq
  · subst he
    rw [alget_aldel_self] at h
    exact absurd h (by simp)
  · rwa [alget_aldel_ne _ he] at h

theorem zmin_isSome (l : List (String × Int)) (m : String) (sc : Int)
    (h : zmin l = some (m, sc)) : (alget l m).isSome = true := by
  induction l generalizing m sc with
  | nil => exact absurd h (by simp [zmin])
  | cons x t ih =>
    obtain ⟨xm, xs⟩ := x
    simp only [zmin] at h
    cases hz : zmin t with
    | none =>
      simp only [hz, Option.some.injEq, Prod.mk.injEq] at h
      obtain ⟨rfl, rfl⟩ := h
      simp [alget]
    | some q =>
      obtain ⟨qm, qs⟩ := q
      simp only [hz] at h
      by_cases hc : xs < qs ∨ (xs = qs ∧ xm < qm)
      · rw [if_pos hc] at h
        simp only [Option.some.injEq, Prod.mk.injEq] at h
        obtain ⟨rfl, rfl⟩ := h
        simp [alget]
      · rw [if_neg hc] at h
        simp only [Option.some.injEq, Prod.mk.injEq] at h
        obtain ⟨rfl, rfl⟩ := h
        by_cases hx : xm = qm
        · simp [alget, hx]
        · simp only [alget, if_neg hx]
          exact ih qm qs hz

theorem leaseOrClear_fst (ct : ContentType) (d : Bool) (v : String)
    (st ttl now : Int) (pstr : String) (s : SchedState) :
    (leaseOrClear ct d v st ttl now pstr s).1 = some (v, unpack ct (some pstr)) := by
  unfold leaseOrClear
  split <;> rfl

/-- When pop_due returns a pair, the key component is the byte string
stored in the original waiting sorted set (no unpack applied), and the
payload component is the unpack of a stored payload string of that
key. -/
theorem popDueLoop_returns (ct : ContentType) (now ttl : Int) (d : Bool) :
    ∀ fuel (s : SchedState) (k : String) (p : Option PyObj),
      (popDueLoop ct now ttl d fuel s).1 = some (k, p) →
      (alget s.waiting k).isSome = true ∧
      ∃ ps, (alget s.payloads k = some ps ∨ alget s.legacyPayload k = some ps) ∧
        p = unpack ct (some ps) := by
  intro fuel
  induction fuel with
  | zero =>
    intro s k p h
    exact absurd h (by simp [popDueLoop])
  | succ n ih =>
    intro s k p h
    have lift : ∀ v2 : String,
        ((alget (clearValue v2 s).waiting k).isSome = true ∧
          ∃ ps, (alget (clearValue v2 s).payloads k = some ps ∨
              alget (clearValue v2 s).legacyPayload k = some ps) ∧
            p = unpack ct (some ps)) →
        (alget s.waiting k).isSome = true ∧
          ∃ ps, (alget s.payloads k = some ps ∨
              alget s.legacyPayload k = some ps) ∧ p = unpack ct (some ps) := by
      rintro v2 ⟨h1, ps, hS, hU⟩
      refine ⟨?_, ps, ?_, hU⟩
      · obtain ⟨x, hx⟩ := Option.isSome_iff_exists.mp h1
        exact Option.isSome_iff_exists.mpr ⟨x, alget_aldel_some hx⟩
      · cases hS with
        | inl h2 => exact Or.inl (alget_aldel_some h2)
        | inr h2 => exact Or.inr (alget_aldel_some h2)
    simp only [popDueLoop] at h
    rcases hzmin : zmin s.waiting with _ | ⟨v, schedTime⟩
    · simp [hzmin] at h
    · simp only [hzmin] at h
      by_cases hdue : v = "" ∨ schedTime > now
      · rw [if_pos hdue] at h
        exact absurd h (by simp)
      · rw [if_neg hdue] at h
        rcases hpay : alget s.payloads v with _ | pstr
        · simp only [hpay] at h
          rcases hleg : alget s.legacyPayload v with _ | lp
          · simp only [hleg] at h
            exact lift v (ih _ k p h)
          · simp only [hleg] at h
            by_cases hlp : (lp != "") = true
            · rw [if_pos hlp, leaseOrClear_fst] at h
              injection h with h2
              injection h2 with hk hp
              subst hk
              subst hp
              exact ⟨zmin_isSome _ _ _ hzmin, lp, Or.inr hleg, rfl⟩
            · rw [if_neg hlp] at h
              exact lift v (ih _ k p h)
        · simp only [hpay] at h
          by_cases hpne : (pstr != "") = true
          · rw [if_pos hpne] at h
            rcases hexp : alget s.expirations v with _ | e
            · simp only [hexp] at h
              rw [leaseOrClear_fst] at h
              injection h with h2
              injection h2 with hk hp
              subst hk
              subst hp
              exact ⟨zmin_isSome _ _ _ hzmin, pstr, Or.inl hpay, rfl⟩
            · simp only [hexp] at h
              by_cases he : e > now
              · rw [if_pos he] at h
                exact lift v (ih _ k p h)
              · rw [if_neg he, leaseOrClear_fst] at h
                injection h with h2
                injection h2 with hk hp
                subst hk
                subst hp
                exact ⟨zmin_isSome _ _ _ hzmin, pstr, Or.inl hpay, rfl⟩
          · rw [if_neg hpne] at h
            rcases hleg : alget s.legacyPayload v with _ | lp
            · simp only [hleg] at h
              exact lift v (ih _ k p h)
            · simp only [hleg] at h
              by_cases hlp : (lp != "") = true
              · rw [if_pos hlp, leaseOrClear_fst] at h
                injection h with h2
                injection h2 with hk hp
                subst hk
                subst hp
                exact ⟨zmin_isSome _ _ _ hzmin, lp, Or.inr hleg, rfl⟩
              · rw [if_neg hlp] at h
                exact lift v (ih _ k p h)

/-- C10.  On success pop_due yields the key exactly as stored in the
waiting sorted set — a packed byte string, no unpack applied — and
decodes only the payload through unpack; Queue.pop by contrast returns
the unpack of the popped packed key.  (With a non-string codec the two
differ: the INT witness gets the string 5 from pop_due but the integer
5 from Queue.pop.) -/
theorem C10_popDue_key_stays_packed :
    (∀ ct now ttl d (s : SchedState) k p,
      (popDue ct now ttl d s).1 = some (k, p) →
      (alget s.waiting k).isSome = true ∧
      ∃ ps, (alget s.payloads k = some ps ∨ alget s.legacyPayload k = some ps) ∧
        p = unpack ct (some ps)) ∧
    (∀ cfg now (s : QueueState) v rest kv pv,
      s.pending = rest ++ [v] →
      unpack cfg.contentType (some v) = some kv →
      unpack cfg.contentType (alget s.payloads v) = some pv →
      (popPair cfg now false s).1 = some (kv, pv)) := by
  constructor
  · intro ct now ttl d s k p h
    exact popDueLoop_returns ct now ttl d _ s k p h
  · intro cfg now s v rest kv pv hpend hkv hpv
    unfold popPair popCore onActivity
    simp only [hpend, rpopList_append]
    by_cases hv0 : v = ""
    · subst hv0
      cases hkw : cfg.keepWorkingEntrySet <;> simp [workingOf, hkv, hpv]
    · cases hkw : cfg.keepWorkingEntrySet <;> simp [workingOf, hkv, hpv, hv0]

/-- C10, witness: under the INT codec the scheduler stores the integer
5 packed as the string 5; pop_due hands back that string with the
unpacked integer payload, while Queue.pop hands back the integer. -/
theorem C10_popDue_key_stays_packed_witness :
    (popDue ContentType.INT 0 60 false sIntSched).1 = some ("5", some (pyint 5)) ∧
    (alget sIntSched.waiting "5").isSome = true ∧
    (popPair cfgInt 0 false sIntQueue).1 = some (pyint 5, pyint 7) :=
  ⟨rfl,
   (C10_popDue_key_stays_packed.1 ContentType.INT 0 60 false sIntSched
     "5" (some (pyint 5)) rfl).1,
   C10_popDue_key_stays_packed.2 cfgInt 0 sIntQueue "5" [] (pyint 5)
     (pyint 7) rfl rfl rfl⟩

/-- C7, witness: the doctest scenario qe — hello is already an entry
with payload1; pushing hello with payload2 leaves one pending element
and the next pop returns payload2. -/
theorem C7_push_dedup_witness :
    (push cfgTrack sQe (pystr "hello") (pystr "payload2")).pending = sQe.pending ∧
    (popVal cfgTrack 0 false
      (push cfgTrack sQe (pystr "hello") (pystr "payload2"))).1 =
      some (pystr "payload2") := by
  have h := C7_push_dedup cfgTrack sQe (pystr "hello") (pystr "payload2")
    "hello" "payload2" (pystr "hello") (pystr "payload2") 0 []
    rfl rfl rfl rfl (by decide) rfl rfl rfl
  exact ⟨h.1, h.2.2.2 rfl⟩

/-! ## Character and digit lemmas -/

theorem toNat_ofNat_of_lt {n : Nat} (h : n < 55296) : (Char.ofNat n).toNat = n := by
  unfold Char.ofNat
  rw [dif_pos (Or.inl h)]
  simp [Char.ofNatAux, Char.toNat, UInt32.toNat, UInt32.ofNatCore]

theorem digitChar_toNat {d : Nat} (h : d < 10) : (digitChar d).toNat = 48 + d :=
  toNat_ofNat_of_lt (by omega)

theorem isDigit_digitChar {d : Nat} (h : d < 10) : isDigit (digitChar d) = true := by
  simp only [isDigit, digitChar_toNat h, decide_eq_true_eq]
  omega

theorem digitVal_digitChar {d : Nat} (h : d < 10) : digitVal (digitChar d) = d := by
  simp [digitVal, digitChar_toNat h]

theorem toNat_of_isDigit {c : Char} (h : isDigit c = true) :
    48 ≤ c.toNat ∧ c.toNat ≤ 57 := by
  simpa [isDigit] using h

theorem not_ws_of_toNat {c : Char} (h : 32 < c.toNat) : c.isWhitespace = false := by
  have h1 : c ≠ ' ' := fun he => absurd h (by subst he; decide)
  have h2 : c ≠ '\t' := fun he => absurd h (by subst he; decide)
  have h3 : c ≠ '\r' := fun he => absurd h (by subst he; decide)
  have h4 : c ≠ '\n' := fun he => absurd h (by subst he; decide)
  simp [Char.isWhitespace, h1, h2, h3, h4]

theorem not_wsChar_of_toNat {c : Char} (h : 32 < c.toNat) : wsChar c = false := by
  have h1 : c ≠ ' ' := fun he => absurd h (by subst he; decide)
  have h2 : c ≠ '\t' := fun he => absurd h (by subst he; decide)
  have h3 : c ≠ '\r' := fun he => absurd h (by subst he; decide)
  have h4 : c ≠ '\n' := fun he => absurd h (by subst he; decide)
  simp [wsChar, h1, h2, h3, h4]

theorem digitsVal_append (l : List Char) (d : Char) :
    digitsVal (l ++ [d]) = 10 * digitsVal l + digitVal d := by
  simp [digitsVal, List.foldl_append]

theorem digitsVal_single (d : Char) : digitsVal [d] = digitVal d := by
  simp [digitsVal]

theorem natCharsAux_spec :
    ∀ fuel n, n < fuel →
      natCharsAux fuel n ≠ [] ∧ (natCharsAux fuel n).all isDigit = true ∧
      digitsVal (natCharsAux fuel n) = n := by
  intro fuel
  induction fuel with
  | zero => intro n h; omega
  | succ f ih =>
    intro n h
    by_cases h10 : n < 10
    · simp only [natCharsAux, if_pos h10]
      refine ⟨by simp, ?_, ?_⟩
      · simp [isDigit_digitChar h10]
      · rw [digitsVal_single, digitVal_digitChar h10]
    · have hd : n / 10 < f := by omega
      obtain ⟨h1, h2, h3⟩ := ih (n / 10) hd
      have hm : n % 10 < 10 := Nat.mod_lt n (by omega)
      simp only [natCharsAux, if_neg h10]
      refine ⟨by simp, ?_, ?_⟩
      · rw [List.all_append]
        simp [h2, isDigit_digitChar hm]
      · rw [digitsVal_append, h3, digitVal_digitChar hm]
        omega

theorem natChars_spec (n : Nat) :
    natChars n ≠ [] ∧ (natChars n).all isDigit = true ∧
    digitsVal (natChars n) = n :=
  natCharsAux_spec (n + 1) n (by omega)

theorem dropWhile_ws_eq_self {l : List Char} (h : ∀ c ∈ l, 32 < c.toNat) :
    l.dropWhile (fun c => c.isWhitespace) = l := by
  cases l with
  | nil => rfl
  | cons a t =>
    rw [List.dropWhile_cons_of_neg]
    simp [not_ws_of_toNat (h a (List.mem_cons_self a t))]

/-- Every character of the rendering of a non-negative integer is a
digit, hence has code in [48, 57]. -/
theorem natChars_toNat_bound {n : Nat} {c : Char} (h : c ∈ natChars n) :
    48 ≤ c.toNat ∧ c.toNat ≤ 57 := by
  obtain ⟨_, hall, _⟩ := natChars_spec n
  exact toNat_of_isDigit (by simpa using List.all_eq_true.mp hall c h)

theorem parseInt_intStr (n : Int) : parseInt (intStr n) = some n := by
  rcases le_or_lt 0 n with hn | hn
  · have hplain : intStr n = ⟨natChars n.toNat⟩ := by
      unfold intStr
      rw [if_neg (by omega)]
    obtain ⟨h1, h2, h3⟩ := natChars_spec n.toNat
    have hmem : ∀ c ∈ natChars n.toNat, 32 < c.toNat := fun c hc => by
      have := natChars_toNat_bound hc
      omega
    have hrev : ∀ c ∈ (natChars n.toNat).reverse, 32 < c.toNat := fun c hc =>
      hmem c (List.mem_reverse.mp hc)
    rw [hplain]
    unfold parseInt
    simp only [String.toList]
    show (match ((((natChars n.toNat).dropWhile fun c => c.isWhitespace).reverse.dropWhile
        fun c => c.isWhitespace).reverse : List Char) with
      | [] => none
      | c :: ds => _) = some n
    rw [dropWhile_ws_eq_self hmem, dropWhile_ws_eq_self hrev, List.reverse_reverse]
    rcases hsh : natChars n.toNat with _ | ⟨c, ds⟩
    · exact absurd hsh h1
    · have hcd : isDigit c = true := by
        have := List.all_eq_true.mp h2 c (by rw [hsh]; exact List.mem_cons_self c ds)
        simpa using this
      have hct := toNat_of_isDigit hcd
      have hc1 : c ≠ '-' := fun he => by subst he; revert hct; decide
      have hc2 : c ≠ '+' := fun he => by subst he; revert hct; decide
      dsimp only
      rw [if_neg hc1, if_neg hc2, if_pos (by rw [← hsh]; exact h2)]
      rw [← hsh, h3]
      congr 1
      omega
  · have hneg : intStr n = ⟨'-' :: natChars (-n).toNat⟩ := by
      unfold intStr
      rw [if_pos hn]
    obtain ⟨h1, h2, h3⟩ := natChars_spec (-n).toNat
    have hmem : ∀ c ∈ '-' :: natChars (-n).toNat, 32 < c.toNat := by
      intro c hc
      rcases List.mem_cons.mp hc with he | hm
      · subst he; decide
      · have := natChars_toNat_bound hm
        omega
    have hrev : ∀ c ∈ ('-' :: natChars (-n).toNat).reverse, 32 < c.toNat := fun c hc =>
      hmem c (List.mem_reverse.mp hc)
    rw [hneg]
    unfold parseInt
    simp only [String.toList]
    show (match (((('-' :: natChars (-n).toNat).dropWhile fun c => c.isWhitespace).reverse.dropWhile
        fun c => c.isWhitespace).reverse : List Char) with
      | [] => none
      | c :: ds => _) = some n
    rw [dropWhile_ws_eq_self hmem, dropWhile_ws_eq_self hrev, List.reverse_reverse]
    dsimp only
    rw [if_pos rfl, if_pos ⟨h1, h2⟩, h3]
    congr 1
    omega

/-! ## String-literal round trip -/

theorem hexVal_hexChar {d : Nat} (h : d < 16) : hexVal (hexChar d) = some d := by
  by_cases h10 : d < 10
  · have ht : (hexChar d).toNat = 48 + d := by
      unfold hexChar
      rw [if_pos h10]
      exact toNat_ofNat_of_lt (by omega)
    unfold hexVal
    rw [ht, if_pos (by omega)]
    congr 1
    omega
  · have ht : (hexChar d).toNat = 87 + d := by
      unfold hexChar
      rw [if_neg h10]
      exact toNat_ofNat_of_lt (by omega)
    unfold hexVal
    rw [ht, if_neg (by omega), if_pos (by omega)]
    congr 1
    omega

theorem encFold_append (cs i rest : List Char) :
    (cs.foldr (fun c acc => encodeChar c ++ acc) i) ++ rest =
      cs.foldr (fun c acc => encodeChar c ++ acc) (i ++ rest) := by
  induction cs with
  | nil => rfl
  | cons c t ih => simp [List.append_assoc, ih]

theorem parseStrBody_quote (f : Nat) (l : List Char) :
    parseStrBody (f + 1) ('"' :: l) = some ([], l) := by
  simp only [parseStrBody]
  rw [if_pos trivial]

theorem parseStrBody_cons_other {c : Char} (h1 : c ≠ '"') (h2 : c ≠ '\\')
    (f : Nat) (l : List Char) :
    parseStrBody (f + 1) (c :: l) =
      (parseStrBody f l).map fun p => (c :: p.1, p.2) := by
  simp only [parseStrBody]
  rw [if_neg h1, if_neg h2]

theorem parseStrBody_esc {e : Char} (hu : e ≠ 'u') (f : Nat) (l : List Char) :
    parseStrBody (f + 1) ('\\' :: e :: l) =
      match escChar e with
      | some ce => (parseStrBody f l).map fun p => (ce :: p.1, p.2)
      | none => none := by
  simp only [parseStrBody]
  rw [if_pos trivial]
  rw [if_neg hu]
  rw [if_neg (show ¬('\\' : Char) = '"' from by decide)]

theorem parseStrBody_u00 {hi lo : Nat} (hhi : hi < 16) (hlo : lo < 16)
    (f : Nat) (l : List Char) :
    parseStrBody (f + 1) ('\\' :: 'u' :: '0' :: '0' :: hexChar hi :: hexChar lo :: l) =
      (parseStrBody f l).map fun p =>
        (Char.ofNat (4096 * 0 + 256 * 0 + 16 * hi + lo) :: p.1, p.2) := by
  simp only [parseStrBody]
  rw [if_pos trivial, if_pos trivial]
  rw [show hexVal '0' = some 0 from by decide, hexVal_hexChar hhi, hexVal_hexChar hlo]
  dsimp only
  rw [if_pos (Or.inl (by omega))]
  rw [if_neg (show ¬('\\' : Char) = '"' from by decide)]

theorem skipWs_cons_of_not_ws {c : Char} (h : wsChar c = false) (l : List Char) :
    skipWs (c :: l) = c :: l := by
  simp [skipWs, List.dropWhile_cons, h]

theorem parseStrBody_enc :
    ∀ (cs rest : List Char) (fuel : Nat),
      (cs.foldr (fun c acc => encodeChar c ++ acc) ('"' :: rest)).length ≤ fuel →
      parseStrBody fuel (cs.foldr (fun c acc => encodeChar c ++ acc) ('"' :: rest)) =
        some (cs, rest) := by
  intro cs
  induction cs with
  | nil =>
    intro rest fuel hf
    simp only [List.foldr_nil, List.length_cons] at hf
    obtain ⟨f, rfl⟩ : ∃ f, fuel = f + 1 := ⟨fuel - 1, by omega⟩
    simp only [List.foldr_nil]
    exact parseStrBody_quote f rest
  | cons c t ih =>
    intro rest fuel hf
    simp only [List.foldr_cons] at hf ⊢
    by_cases h1 : c = '"'
    · subst h1
      rw [show encodeChar '"' = ['\\', '"'] from by decide] at hf ⊢
      simp only [List.cons_append, List.nil_append, List.length_cons] at hf ⊢
      obtain ⟨f, rfl⟩ : ∃ f, fuel = f + 1 := ⟨fuel - 1, by omega⟩
      rw [parseStrBody_esc (by decide)]
      rw [show escChar '"' = some '"' from by decide]
      dsimp only
      rw [ih rest f (by omega)]
      rfl
    · by_cases h2 : c = '\\'
      · subst h2
        rw [show encodeChar '\\' = ['\\', '\\'] from by decide] at hf ⊢
        simp only [List.cons_append, List.nil_append, List.length_cons] at hf ⊢
        obtain ⟨f, rfl⟩ : ∃ f, fuel = f + 1 := ⟨fuel - 1, by omega⟩
        rw [parseStrBody_esc (by decide)]
        rw [show escChar '\\' = some '\\' from by decide]
        dsimp only
        rw [ih rest f (by omega)]
        rfl
      · by_cases h3 : c.toNat < 32
        · by_cases hb : c.toNat = 8
          · have he : encodeChar c = ['\\', 'b'] := by
              unfold encodeChar
              rw [if_neg h1, if_neg h2, if_pos h3, if_pos hb]
            rw [he] at hf ⊢
            simp only [List.cons_append, List.nil_append, List.length_cons] at hf ⊢
            obtain ⟨f, rfl⟩ : ∃ f, fuel = f + 1 := ⟨fuel - 1, by omega⟩
            rw [parseStrBody_esc (by decide)]
            rw [show escChar 'b' = some (Char.ofNat 8) from by decide]
            dsimp only
            rw [ih rest f (by omega), ← hb, Char.ofNat_toNat]
            rfl
          · by_cases ht : c.toNat = 9
            · have he : encodeChar c = ['\\', 't'] := by
                unfold encodeChar
                rw [if_neg h1, if_neg h2, if_pos h3, if_neg hb, if_pos ht]
              rw [he] at hf ⊢
              simp only [List.cons_append, List.nil_append, List.length_cons] at hf ⊢
              obtain ⟨f, rfl⟩ : ∃ f, fuel = f + 1 := ⟨fuel - 1, by omega⟩
              rw [parseStrBody_esc (by decide)]
              rw [show escChar 't' = some '\t' from by decide]
              dsimp only
              rw [ih rest f (by omega), show ('\t' : Char) = Char.ofNat 9 from by decide,
                ← ht, Char.ofNat_toNat]
              rfl
            · by_cases hn2 : c.toNat = 10
              · have he : encodeChar c = ['\\', 'n'] := by
                  unfold encodeChar
                  rw [if_neg h1, if_neg h2, if_pos h3, if_neg hb, if_neg ht, if_pos hn2]
                rw [he] at hf ⊢
                simp only [List.cons_append, List.nil_append, List.length_cons] at hf ⊢
                obtain ⟨f, rfl⟩ : ∃ f, fuel = f + 1 := ⟨fuel - 1, by omega⟩
                rw [parseStrBody_esc (by decide)]
                rw [show escChar 'n' = some '\n' from by decide]
                dsimp only
                rw [ih rest f (by omega), show ('\n' : Char) = Char.ofNat 10 from by decide,
                  ← hn2, Char.ofNat_toNat]
                rfl
              · by_cases hfc : c.toNat = 12
                · have he : encodeChar c = ['\\', 'f'] := by
                    unfold encodeChar
                    rw [if_neg h1, if_neg h2, if_pos h3, if_neg hb, if_neg ht,
                      if_neg hn2, if_pos hfc]
                  rw [he] at hf ⊢
                  simp only [List.cons_append, List.nil_append, List.length_cons] at hf ⊢
                  obtain ⟨f, rfl⟩ : ∃ f, fuel = f + 1 := ⟨fuel - 1, by omega⟩
                  rw [parseStrBody_esc (by decide)]
                  rw [show escChar 'f' = some (Char.ofNat 12) from by decide]
                  dsimp only
                  rw [ih rest f (by omega), ← hfc, Char.ofNat_toNat]
                  rfl
                · by_cases hr : c.toNat = 13
                  · have he : encodeChar c = ['\\', 'r'] := by
                      unfold encodeChar
                      rw [if_neg h1, if_neg h2, if_pos h3, if_neg hb, if_neg ht,
                        if_neg hn2, if_neg hfc, if_pos hr]
                    rw [he] at hf ⊢
                    simp only [List.cons_append, List.nil_append, List.length_cons] at hf ⊢
                    obtain ⟨f, rfl⟩ : ∃ f, fuel = f + 1 := ⟨fuel - 1, by omega⟩
                    rw [parseStrBody_esc (by decide)]
                    rw [show escChar 'r' = some '\r' from by decide]
                    dsimp only
                    rw [ih rest f (by omega), show ('\r' : Char) = Char.ofNat 13 from by decide,
                      ← hr, Char.ofNat_toNat]
                    rfl
                  · have he : encodeChar c =
                        ['\\', 'u', '0', '0', hexChar (c.toNat / 16),
                          hexChar (c.toNat % 16)] := by
                      unfold encodeChar
                      rw [if_neg h1, if_neg h2, if_pos h3, if_neg hb, if_neg ht,
                        if_neg hn2, if_neg hfc, if_neg hr]
                    rw [he] at hf ⊢
                    simp only [List.cons_append, List.nil_append, List.length_cons] at hf ⊢
                    obtain ⟨f, rfl⟩ : ∃ f, fuel = f + 1 := ⟨fuel - 1, by omega⟩
                    rw [parseStrBody_u00 (by omega) (by omega), ih rest f (by omega)]
                    have hn : 4096 * 0 + 256 * 0 + 16 * (c.toNat / 16) + c.toNat % 16
                        = c.toNat := by omega
                    rw [hn, Char.ofNat_toNat]
                    rfl
        · have he : encodeChar c = [c] := by
            unfold encodeChar
            rw [if_neg h1, if_neg h2, if_neg h3]
          rw [he] at hf ⊢
          simp only [List.singleton_append, List.length_cons] at hf ⊢
          obtain ⟨f, rfl⟩ : ∃ f, fuel = f + 1 := ⟨fuel - 1, by omega⟩
          rw [parseStrBody_cons_other h1 h2, ih rest f (by omega)]
          rfl

/-! ## Numeric literal round trip -/

theorem takeDigits_stop {rest : List Char}
    (h : ∀ c t, rest = c :: t → isDigit c = false) :
    takeDigits rest = ([], rest) := by
  cases rest with
  | nil => rfl
  | cons c t =>
    simp only [takeDigits]
    rw [if_neg (by simp [h c t rfl])]

theorem takeDigits_append {ds : List Char} (hds : ds.all isDigit = true)
    {rest : List Char} (h : ∀ c t, rest = c :: t → isDigit c = false) :
    takeDigits (ds ++ rest) = (ds, rest) := by
  induction ds with
  | nil => simpa using takeDigits_stop h
  | cons d t ih =>
    simp only [List.all_cons, Bool.and_eq_true] at hds
    simp only [List.cons_append, takeDigits]
    rw [if_pos hds.1]
    simp only [List.append_eq]
    rw [ih hds.2]

theorem numStop_not_digit {c : Char} {t : List Char}
    (h : numStop (c :: t) = true) :
    isDigit c = false ∧ c ≠ '.' ∧ c ≠ 'e' ∧ c ≠ 'E' := by
  simp only [numStop, Bool.not_eq_true', Bool.or_eq_false_iff,
    decide_eq_false_iff_not] at h
  exact ⟨h.1.1.1, h.1.1.2, h.1.2, h.2⟩

theorem parseNum_digits {ds rest : List Char} (hne : ds ≠ [])
    (hall : ds.all isDigit = true) (hstop : numStop rest = true)
    (hhead : ∀ c t, ds = c :: t → c ≠ '-') :
    parseNum (ds ++ rest) = some (pyint (digitsVal ds), rest) := by
  have hstop2 : ∀ c t, rest = c :: t → isDigit c = false := by
    intro c t he
    subst he
    exact (numStop_not_digit hstop).1
  rcases ds with _ | ⟨c0, t0⟩
  · exact absurd rfl hne
  · simp only [List.cons_append, parseNum]
    simp only [if_neg (hhead c0 t0 rfl)]
    have htd : takeDigits (c0 :: (t0 ++ rest)) = (c0 :: t0, rest) := by
      rw [← List.cons_append]
      exact takeDigits_append hall hstop2
    rw [htd]
    dsimp only
    rcases rest with _ | ⟨c1, t1⟩
    · rfl
    · obtain ⟨hd1, hd2, hd3, hd4⟩ := numStop_not_digit hstop
      dsimp only
      rw [if_neg (by simp [hd2, hd3, hd4])]
      rfl

theorem parseNum_neg_digits {ds rest : List Char} (hne : ds ≠ [])
    (hall : ds.all isDigit = true) (hstop : numStop rest = true) :
    parseNum (('-' :: ds) ++ rest) = some (pyint (-(digitsVal ds : Int)), rest) := by
  have hstop2 : ∀ c t, rest = c :: t → isDigit c = false := by
    intro c t he
    subst he
    exact (numStop_not_digit hstop).1
  simp only [List.cons_append, parseNum]
  simp only [if_pos trivial]
  rw [takeDigits_append hall hstop2]
  rcases ds with _ | ⟨c0, t0⟩
  · exact absurd rfl hne
  · dsimp only
    rcases rest with _ | ⟨c1, t1⟩
    · rfl
    · obtain ⟨hd1, hd2, hd3, hd4⟩ := numStop_not_digit hstop
      dsimp only
      rw [if_neg (by simp [hd2, hd3, hd4])]

theorem parseNum_intStr (n : Int) (rest : List Char) (hstop : numStop rest = true) :
    parseNum ((intStr n).data ++ rest) = some (pyint n, rest) := by
  rcases le_or_lt 0 n with hn | hn
  · have hd : (intStr n).data = natChars n.toNat := by
      unfold intStr
      rw [if_neg (by omega)]
    obtain ⟨h1, h2, h3⟩ := natChars_spec n.toNat
    have hhead : ∀ c t, natChars n.toNat = c :: t → c ≠ '-' := by
      intro c t he
      have hc : isDigit c = true := by
        have := List.all_eq_true.mp h2 c (by rw [he]; exact List.mem_cons_self c t)
        simpa using this
      have hct := toNat_of_isDigit hc
      intro hcm
      subst hcm
      revert hct
      decide
    rw [hd, parseNum_digits h1 h2 hstop hhead, h3, Int.toNat_of_nonneg hn]
  · have hd : (intStr n).data = '-' :: natChars (-n).toNat := by
      unfold intStr
      rw [if_pos hn]
    obtain ⟨h1, h2, h3⟩ := natChars_spec (-n).toNat
    rw [hd, parseNum_neg_digits h1 h2 hstop, h3,
      Int.toNat_of_nonneg (by omega : (0:Int) ≤ -n), neg_neg]

/-! ## Shape of printed values and fuel bounds -/

theorem ne_of_toNat {c d : Char} (h : c.toNat ≠ d.toNat) : c ≠ d :=
  fun he => h (he ▸ rfl)

/-- Every printed value starts with a non-whitespace character that is
neither a closing bracket nor a closing brace. -/
theorem jdump_shape (v : PyObj) :
    ∃ c t, jdump v = c :: t ∧ wsChar c = false ∧ c ≠ ']' ∧ c ≠ '}' := by
  cases v with
  | pynone => exact ⟨'n', _, rfl, by decide, by decide, by decide⟩
  | pybool b => cases b <;> exact ⟨_, _, rfl, by decide, by decide, by decide⟩
  | pystr s => exact ⟨'"', _, rfl, by decide, by decide, by decide⟩
  | pylist xs => exact ⟨'[', _, rfl, by decide, by decide, by decide⟩
  | pydict kvs => exact ⟨'{', _, rfl, by decide, by decide, by decide⟩
  | pyint n =>
    rcases le_or_lt 0 n with hn | hn
    · have hd : jdump (pyint n) = natChars n.toNat := by
        show (intStr n).data = _
        unfold intStr
        rw [if_neg (by omega)]
      obtain ⟨h1, h2, _⟩ := natChars_spec n.toNat
      rcases hsh : natChars n.toNat with _ | ⟨c0, t0⟩
      · exact absurd hsh h1
      · have hct : 48 ≤ c0.toNat ∧ c0.toNat ≤ 57 := by
          refine toNat_of_isDigit ?_
          have := List.all_eq_true.mp h2 c0 (by rw [hsh]; exact List.mem_cons_self c0 t0)
          simpa using this
        refine ⟨c0, t0, by rw [hd, hsh], not_wsChar_of_toNat (by omega), ?_, ?_⟩
        · exact ne_of_toNat (by rw [show (']' : Char).toNat = 93 from rfl]; omega)
        · exact ne_of_toNat (by rw [show ('}' : Char).toNat = 125 from rfl]; omega)
    · have hd : jdump (pyint n) = '-' :: natChars (-n).toNat := by
        show (intStr n).data = _
        unfold intStr
        rw [if_pos hn]
      exact ⟨'-', _, hd, by decide, by decide, by decide⟩

theorem pneed_pos (v : PyObj) : 1 ≤ pneed v := by
  cases v <;> simp [pneed]

theorem pneedList_pos {xs : List PyObj} (h : xs ≠ []) : 1 ≤ pneedList xs := by
  cases xs with
  | nil => exact absurd rfl h
  | cons x t => simp [pneedList]; omega

theorem pneedKVs_pos {kvs : List (String × PyObj)} (h : kvs ≠ []) :
    1 ≤ pneedKVs kvs := by
  cases kvs with
  | nil => exact absurd rfl h
  | cons kv t => simp [pneedKVs]; omega

mutual

theorem pneed_le_len (v : PyObj) : pneed v ≤ 2 * (jdump v).length := by
  cases v with
  | pynone => simp [pneed, jdump]
  | pybool b => cases b <;> simp [pneed, jdump]
  | pystr s =>
    simp only [pneed, jdump, encodeStr, List.length_cons]
    omega
  | pyint n =>
    obtain ⟨c, t, heq, -, -, -⟩ := jdump_shape (pyint n)
    rw [heq]
    simp only [pneed, List.length_cons]
    omega
  | pylist xs =>
    have h := pneedList_le_len xs
    simp only [pneed, jdump, List.length_cons, List.length_append]
    omega
  | pydict kvs =>
    have h := pneedKVs_le_len kvs
    simp only [pneed, jdump, List.length_cons, List.length_append]
    omega

theorem pneedList_le_len (xs : List PyObj) :
    pneedList xs ≤ 2 * (jdumpList xs).length + 1 := by
  match xs with
  | [] => simp [pneedList]
  | [x] =>
    have h := pneed_le_len x
    simp only [pneedList, jdumpList]
    omega
  | x :: y :: t =>
    have h1 := pneed_le_len x
    have h2 := pneedList_le_len (y :: t)
    simp only [pneedList] at h2
    simp only [pneedList, jdumpList, List.length_append, List.length_cons]
    omega

theorem pneedKVs_le_len (kvs : List (String × PyObj)) :
    pneedKVs kvs ≤ 2 * (jdumpKVs kvs).length + 1 := by
  match kvs with
  | [] => simp [pneedKVs]
  | [(k, v)] =>
    have h := pneed_le_len v
    simp only [pneedKVs, jdumpKVs, List.length_append, List.length_cons]
    omega
  | (k, v) :: p :: t =>
    have h1 := pneed_le_len v
    have h2 := pneedKVs_le_len (p :: t)
    simp only [pneedKVs] at h2
    simp only [pneedKVs, jdumpKVs, List.length_append, List.length_cons]
    omega

end

/-! ## The reader inverts the printer -/

theorem parseVal_num {c0 : Char} (hws : wsChar c0 = false)
    (h1 : c0 ≠ '"') (h2 : c0 ≠ '[') (h3 : c0 ≠ '{') (h4 : c0 ≠ 't')
    (h5 : c0 ≠ 'f') (h6 : c0 ≠ 'n') (g : Nat) (l : List Char) :
    parseVal (g + 1) (c0 :: l) = parseNum (c0 :: l) := by
  simp only [parseVal]
  rw [skipWs_cons_of_not_ws hws]
  dsimp only
  rw [if_neg h1, if_neg h2, if_neg h3, if_neg h4, if_neg h5, if_neg h6]

theorem intStr_head (n : Int) :
    ∃ c0 t0, (intStr n).data = c0 :: t0 ∧
      (c0.toNat = 45 ∨ (48 ≤ c0.toNat ∧ c0.toNat ≤ 57)) := by
  rcases le_or_lt 0 n with hn | hn
  · have hd : (intStr n).data = natChars n.toNat := by
      unfold intStr
      rw [if_neg (by omega)]
    obtain ⟨h1, h2, -⟩ := natChars_spec n.toNat
    rcases hsh : natChars n.toNat with _ | ⟨c0, t0⟩
    · exact absurd hsh h1
    · have hct : 48 ≤ c0.toNat ∧ c0.toNat ≤ 57 := by
        refine toNat_of_isDigit ?_
        have := List.all_eq_true.mp h2 c0 (by rw [hsh]; exact List.mem_cons_self c0 t0)
        simpa using this
      exact ⟨c0, t0, by rw [hd, hsh], Or.inr hct⟩
  · have hd : (intStr n).data = '-' :: natChars (-n).toNat := by
      unfold intStr
      rw [if_pos hn]
    exact ⟨'-', _, hd, Or.inl rfl⟩

theorem jdumpList_shape {xs : List PyObj} (h : xs ≠ []) :
    ∃ c0 t0, jdumpList xs = c0 :: t0 ∧ wsChar c0 = false ∧ c0 ≠ ']' := by
  cases xs with
  | nil => exact absurd rfl h
  | cons x t =>
    obtain ⟨c0, t0, hx, hws, hbr, -⟩ := jdump_shape x
    cases t with
    | nil => exact ⟨c0, t0, by simp only [jdumpList]; exact hx, hws, hbr⟩
    | cons y t2 =>
      exact ⟨c0, t0 ++ ',' :: ' ' :: jdumpList (y :: t2),
        by simp only [jdumpList]; rw [hx]; rfl, hws, hbr⟩

theorem jdumpKVs_shape {kvs : List (String × PyObj)} (h : kvs ≠ []) :
    ∃ t0, jdumpKVs kvs = '"' :: t0 := by
  cases kvs with
  | nil => exact absurd rfl h
  | cons kv t =>
    obtain ⟨k, v⟩ := kv
    cases t with
    | nil => exact ⟨_, rfl⟩
    | cons p t2 => exact ⟨_, rfl⟩

theorem parse_jdump_aux : ∀ g : Nat,
    (∀ (v : PyObj) (rest : List Char), pneed v ≤ g → numStop rest = true →
      parseVal g (jdump v ++ rest) = some (v, rest)) ∧
    (∀ (xs : List PyObj) (rest0 : List Char), xs ≠ [] → pneedList xs ≤ g →
      parseElems g (jdumpList xs ++ ']' :: rest0) = some (xs, rest0)) ∧
    (∀ (kvs : List (String × PyObj)) (rest0 : List Char), kvs ≠ [] →
      pneedKVs kvs ≤ g →
      parseMembers g (jdumpKVs kvs ++ '}' :: rest0) = some (kvs, rest0)) := by
  intro g
  induction g using Nat.strong_induction_on with
  | _ g ih =>
    refine ⟨?_, ?_, ?_⟩
    · intro v rest hg hstop
      obtain ⟨g2, rfl⟩ : ∃ g2, g = g2 + 1 :=
        ⟨g - 1, by have := pneed_pos v; omega⟩
      cases v with
      | pynone => rfl
      | pybool b => cases b <;> rfl
      | pystr s =>
        show parseVal (g2 + 1)
          ('"' :: (s.data.foldr (fun c acc => encodeChar c ++ acc) ['"'] ++ rest)) = _
        simp only [parseVal]
        rw [skipWs_cons_of_not_ws (by decide)]
        dsimp only
        rw [if_pos rfl, encFold_append]
        simp only [List.singleton_append]
        rw [parseStrBody_enc s.data rest _ (by omega)]
        rfl
      | pyint n =>
        obtain ⟨c0, t0, heq, hc⟩ := intStr_head n
        show parseVal (g2 + 1) ((intStr n).data ++ rest) = _
        rw [heq]
        simp only [List.cons_append]
        rw [parseVal_num (not_wsChar_of_toNat (by omega))
          (ne_of_toNat (by have h : ('"' : Char).toNat = 34 := rfl; omega))
          (ne_of_toNat (by have h : ('[' : Char).toNat = 91 := rfl; omega))
          (ne_of_toNat (by have h : ('{' : Char).toNat = 123 := rfl; omega))
          (ne_of_toNat (by have h : ('t' : Char).toNat = 116 := rfl; omega))
          (ne_of_toNat (by have h : ('f' : Char).toNat = 102 := rfl; omega))
          (ne_of_toNat (by have h : ('n' : Char).toNat = 110 := rfl; omega))]
        rw [← List.cons_append, ← heq]
        exact parseNum_intStr n rest hstop
      | pylist xs =>
        cases xs with
        | nil => rfl
        | cons x t =>
          have hlist : jdump (pylist (x :: t)) ++ rest =
              '[' :: (jdumpList (x :: t) ++ ']' :: rest) := by
            show ('[' :: jdumpList (x :: t) ++ [']']) ++ rest = _
            simp [List.append_assoc]
          rw [hlist]
          simp only [parseVal]
          rw [skipWs_cons_of_not_ws (by decide)]
          dsimp only
          rw [if_neg (by decide), if_pos rfl]
          obtain ⟨c0, t0, hsh, hws0, hbr⟩ := jdumpList_shape
            (show x :: t ≠ [] by simp)
          have hsk : skipWs (jdumpList (x :: t) ++ ']' :: rest) =
              c0 :: (t0 ++ ']' :: rest) := by
            rw [hsh]
            exact skipWs_cons_of_not_ws hws0 _
          rw [hsk]
          dsimp only
          rw [if_neg hbr]
          rw [(ih g2 (by omega)).2.1 (x :: t) rest (by simp)
            (by simp only [pneed] at hg; omega)]
          rfl
      | pydict kvs =>
        cases kvs with
        | nil => rfl
        | cons kv t =>
          have hdict : jdump (pydict (kv :: t)) ++ rest =
              '{' :: (jdumpKVs (kv :: t) ++ '}' :: rest) := by
            show ('{' :: jdumpKVs (kv :: t) ++ ['}']) ++ rest = _
            simp [List.append_assoc]
          rw [hdict]
          simp only [parseVal]
          rw [skipWs_cons_of_not_ws (by decide)]
          dsimp only
          rw [if_neg (by decide), if_neg (by decide), if_pos rfl]
          obtain ⟨t0, hsh⟩ := jdumpKVs_shape (show kv :: t ≠ [] by simp)
          have hsk : skipWs (jdumpKVs (kv :: t) ++ '}' :: rest) =
              '"' :: (t0 ++ '}' :: rest) := by
            rw [hsh]
            exact skipWs_cons_of_not_ws (show wsChar '"' = false by decide) _
          rw [hsk]
          dsimp only
          rw [if_neg (by decide)]
          rw [(ih g2 (by omega)).2.2 (kv :: t) rest (by simp)
            (by simp only [pneed] at hg; omega)]
          rfl
    · intro xs rest0 hne hg
      obtain ⟨e, rfl⟩ : ∃ e, g = e + 1 :=
        ⟨g - 1, by have := pneedList_pos hne; omega⟩
      cases xs with
      | nil => exact absurd rfl hne
      | cons x t =>
        simp only [pneedList] at hg
        have hpx := pneed_pos x
        cases t with
        | nil =>
          show parseElems (e + 1) (jdump x ++ ']' :: rest0) = _
          simp only [parseElems]
          rw [(ih e (by omega)).1 x (']' :: rest0) (by omega) rfl]
          rfl
        | cons y t2 =>
          have htail : jdumpList (x :: y :: t2) ++ ']' :: rest0 =
              jdump x ++ ',' :: ' ' :: (jdumpList (y :: t2) ++ ']' :: rest0) := by
            simp only [jdumpList]
            simp [List.append_assoc]
          rw [htail]
          have hpyt : 2 ≤ pneedList (y :: t2) := by
            have := pneed_pos y
            simp only [pneedList]
            omega
          obtain ⟨e2, rfl⟩ : ∃ e2, e = e2 + 2 := ⟨e - 2, by omega⟩
          simp only [parseElems]
          rw [(ih (e2 + 2) (by omega)).1 x
            (',' :: ' ' :: (jdumpList (y :: t2) ++ ']' :: rest0)) (by omega) rfl]
          show ((parseElems (e2 + 2)
              (' ' :: (jdumpList (y :: t2) ++ ']' :: rest0))).map
              fun q => (x :: q.1, q.2)) = some (x :: y :: t2, rest0)
          rw [show parseElems (e2 + 2)
              (' ' :: (jdumpList (y :: t2) ++ ']' :: rest0)) =
              parseElems (e2 + 2) (jdumpList (y :: t2) ++ ']' :: rest0) from rfl]
          rw [(ih (e2 + 2) (by omega)).2.1 (y :: t2) rest0 (by simp) (by omega)]
          rfl
    · intro kvs rest0 hne hg
      obtain ⟨e, rfl⟩ : ∃ e, g = e + 1 :=
        ⟨g - 1, by have := pneedKVs_pos hne; omega⟩
      cases kvs with
      | nil => exact absurd rfl hne
      | cons kv t =>
        obtain ⟨k, v⟩ := kv
        simp only [pneedKVs] at hg
        have hpv := pneed_pos v
        cases t with
        | nil =>
          have hkv1 : jdumpKVs [(k, v)] ++ '}' :: rest0 =
              '"' :: k.data.foldr (fun c acc => encodeChar c ++ acc)
                ('"' :: (':' :: ' ' :: (jdump v ++ '}' :: rest0))) := by
            simp [jdumpKVs, encodeStr, encFold_append, List.append_assoc]
          rw [hkv1]
          obtain ⟨e2, rfl⟩ : ∃ e2, e = e2 + 1 := ⟨e - 1, by omega⟩
          have h1 : (match parseStrBody
                ((k.data.foldr (fun c acc => encodeChar c ++ acc)
                  ('"' :: (':' :: ' ' :: (jdump v ++ '}' :: rest0)))).length + 1)
                (k.data.foldr (fun c acc => encodeChar c ++ acc)
                  ('"' :: (':' :: ' ' :: (jdump v ++ '}' :: rest0)))) with
              | none => none
              | some (kcs, r) =>
                match skipWs r with
                | ':' :: r2 =>
                  (match parseVal (e2 + 1) r2 with
                   | none => none
                   | some (vv, r3) =>
                     match skipWs r3 with
                     | ',' :: r4 => (parseMembers (e2 + 1) r4).map
                         fun q => ((⟨kcs⟩, vv) :: q.1, q.2)
                     | '}' :: r4 => some ([(⟨kcs⟩, vv)], r4)
                     | _ => none)
                | _ => none) =
              parseMembers (e2 + 1 + 1) ('"' :: k.data.foldr
                (fun c acc => encodeChar c ++ acc)
                ('"' :: (':' :: ' ' :: (jdump v ++ '}' :: rest0)))) := rfl
          rw [← h1, parseStrBody_enc k.data
            (':' :: ' ' :: (jdump v ++ '}' :: rest0)) _ (by omega)]
          show (match parseVal (e2 + 1)
                (' ' :: (jdump v ++ '}' :: rest0)) with
              | none => none
              | some (vv, r3) =>
                match skipWs r3 with
                | ',' :: r4 => (parseMembers (e2 + 1) r4).map
                    fun q => ((⟨k.data⟩, vv) :: q.1, q.2)
                | '}' :: r4 => some ([(⟨k.data⟩, vv)], r4)
                | _ => none) = some ([(k, v)], rest0)
          rw [show parseVal (e2 + 1) (' ' :: (jdump v ++ '}' :: rest0)) =
              parseVal (e2 + 1) (jdump v ++ '}' :: rest0) from rfl]
          rw [(ih (e2 + 1) (by omega)).1 v ('}' :: rest0) (by omega) rfl]
          rfl
        | cons p t2 =>
          have hkv : jdumpKVs ((k, v) :: p :: t2) ++ '}' :: rest0 =
              '"' :: k.data.foldr (fun c acc => encodeChar c ++ acc)
                ('"' :: (':' :: ' ' :: (jdump v ++ ',' :: ' ' ::
                  (jdumpKVs (p :: t2) ++ '}' :: rest0)))) := by
            simp [jdumpKVs, encodeStr, encFold_append, List.append_assoc]
          rw [hkv]
          have hpkt : 2 ≤ pneedKVs (p :: t2) := by
            have := pneed_pos p.2
            simp only [pneedKVs]
            omega
          obtain ⟨e2, rfl⟩ : ∃ e2, e = e2 + 2 := ⟨e - 2, by omega⟩
          have h1 : (match parseStrBody
                ((k.data.foldr (fun c acc => encodeChar c ++ acc)
                  ('"' :: (':' :: ' ' :: (jdump v ++ ',' :: ' ' ::
                    (jdumpKVs (p :: t2) ++ '}' :: rest0))))).length + 1)
                (k.data.foldr (fun c acc => encodeChar c ++ acc)
                  ('"' :: (':' :: ' ' :: (jdump v ++ ',' :: ' ' ::
                    (jdumpKVs (p :: t2) ++ '}' :: rest0))))) with
              | none => none
              | some (kcs, r) =>
                match skipWs r with
                | ':' :: r2 =>
                  (match parseVal (e2 + 2) r2 with
                   | none => none
                   | some (vv, r3) =>
                     match skipWs r3 with
                     | ',' :: r4 => (parseMembers (e2 + 2) r4).map
                         fun q => ((⟨kcs⟩, vv) :: q.1, q.2)
                     | '}' :: r4 => some ([(⟨kcs⟩, vv)], r4)
                     | _ => none)
                | _ => none) =
              parseMembers (e2 + 2 + 1) ('"' :: k.data.foldr
                (fun c acc => encodeChar c ++ acc)
                ('"' :: (':' :: ' ' :: (jdump v ++ ',' :: ' ' ::
                  (jdumpKVs (p :: t2) ++ '}' :: rest0))))) := rfl
          rw [← h1, parseStrBody_enc k.data
            (':' :: ' ' :: (jdump v ++ ',' :: ' ' ::
              (jdumpKVs (p :: t2) ++ '}' :: rest0))) _ (by omega)]
          show (match parseVal (e2 + 2) (' ' :: (jdump v ++ ',' :: ' ' ::
                (jdumpKVs (p :: t2) ++ '}' :: rest0))) with
              | none => none
              | some (vv, r3) =>
                match skipWs r3 with
                | ',' :: r4 => (parseMembers (e2 + 2) r4).map
                    fun q => ((⟨k.data⟩, vv) :: q.1, q.2)
                | '}' :: r4 => some ([(⟨k.data⟩, vv)], r4)
                | _ => none) = some ((k, v) :: p :: t2, rest0)
          rw [show parseVal (e2 + 2) (' ' :: (jdump v ++ ',' :: ' ' ::
              (jdumpKVs (p :: t2) ++ '}' :: rest0))) =
              parseVal (e2 + 2) (jdump v ++ ',' :: ' ' ::
              (jdumpKVs (p :: t2) ++ '}' :: rest0)) from rfl]
          rw [(ih (e2 + 2) (by omega)).1 v (',' :: ' ' ::
            (jdumpKVs (p :: t2) ++ '}' :: rest0)) (by omega) rfl]
          show ((parseMembers (e2 + 2) (' ' ::
              (jdumpKVs (p :: t2) ++ '}' :: rest0))).map
              fun q => ((⟨k.data⟩, v) :: q.1, q.2)) = some ((k, v) :: p :: t2, rest0)
          rw [show parseMembers (e2 + 2) (' ' ::
              (jdumpKVs (p :: t2) ++ '}' :: rest0)) =
              parseMembers (e2 + 2) (jdumpKVs (p :: t2) ++ '}' :: rest0) from rfl]
          rw [(ih (e2 + 2) (by omega)).2.2 (p :: t2) rest0 (by simp) (by omega)]
          rfl

/-- simplejson.loads inverts simplejson.dumps on every modelled value:
the entry point's fuel covers the printed form, and the parser consumes
exactly the printed characters with nothing but the empty rest. -/
theorem loads_dumps (v : PyObj) : jsonLoads (dumps v) = some v := by
  have h := (parse_jdump_aux (2 * (jdump v).length + 2)).1 v []
    (by have := pneed_le_len v; omega) rfl
  rw [List.append_nil] at h
  show (match parseVal (2 * (jdump v).length + 2) (jdump v) with
        | some (w, rest) => if (skipWs rest).isEmpty then some w else none
        | none => none) = some v
  rw [h]
  rfl

/-- C9 counterexample: with the JSON content type, a value that is
already a string is passed through by pack (base.py:27-28) without
being JSON-encoded, and unpack then feeds the bare text to
simplejson.loads, which rejects it — so unpack(pack("hello")) is a
decode error, not "hello", refuting the claim for the string values of
the structured kind. -/
theorem C9_json_string_passthrough_cex :
    unpack ContentType.JSON (pack ContentType.JSON (pystr "hello")) ≠
      some (pystr "hello") := by
  intro h
  rw [show unpack ContentType.JSON (pack ContentType.JSON (pystr "hello")) =
      none from rfl] at h
  exact Option.noConfusion h

/-- C9 (amended): pack sends None to None and unpack sends None to
None, for every content kind; the round trip unpack(pack(v)) == v
holds for string values under the string kind, for integers under the
int kind, and under the structured (JSON) kind for every well-formed
value that is neither None nor already a string — those are passed
through unencoded.  (The real/float kind renders through IEEE
floating point and is outside this development.) -/
theorem C9_codec_roundtrip :
    (∀ ct, pack ct pynone = none) ∧
    (∀ ct, unpack ct none = some pynone) ∧
    (∀ s, unpack ContentType.STRING (pack ContentType.STRING (pystr s)) =
      some (pystr s)) ∧
    (∀ n : Int, unpack ContentType.INT (pack ContentType.INT (pyint n)) =
      some (pyint n)) ∧
    (∀ v : PyObj, jwf v = true → v ≠ pynone → (∀ s, v ≠ pystr s) →
      unpack ContentType.JSON (pack ContentType.JSON v) = some v) := by
  refine ⟨fun ct => rfl, fun ct => rfl, fun s => rfl, ?_, ?_⟩
  · intro n
    show (parseInt (intStr n)).map pyint = some (pyint n)
    rw [parseInt_intStr]
    rfl
  · intro v _ hnn hns
    cases v with
    | pynone => exact absurd rfl hnn
    | pystr s => exact absurd rfl (hns s)
    | pyint n => exact loads_dumps (pyint n)
    | pybool b => exact loads_dumps (pybool b)
    | pylist xs => exact loads_dumps (pylist xs)
    | pydict kvs => exact loads_dumps (pydict kvs)

/-- C9 witness: the round trips evaluated at "hello", -42 and the
object {"hello": "world"}, the last with its well-formedness and
non-string side conditions discharged concretely. -/
theorem C9_codec_roundtrip_witness :
    unpack ContentType.STRING (pack ContentType.STRING (pystr "hello")) =
      some (pystr "hello") ∧
    unpack ContentType.INT (pack ContentType.INT (pyint (-42))) =
      some (pyint (-42)) ∧
    jwf (pydict [("hello", pystr "world")]) = true ∧
    unpack ContentType.JSON
        (pack ContentType.JSON (pydict [("hello", pystr "world")])) =
      some (pydict [("hello", pystr "world")]) :=
  ⟨C9_codec_roundtrip.2.2.1 "hello",
   C9_codec_roundtrip.2.2.2.1 (-42),
   rfl,
   C9_codec_roundtrip.2.2.2.2 (pydict [("hello", pystr "world")]) rfl
     (fun h => PyObj.noConfusion h)
     (fun _ h => PyObj.noConfusion h)⟩

end Resched
